import Mathlib

/-!
Verification of the NaviOS memory-management core: page and frame primitives,
the page-table entry encoding, the four-level mapping walk `map_to`, recursive
teardown `free`, and the linked-list heap allocator with on-demand growth.

Modelling conventions.  Machine integers (`usize`, `u64`) are modelled as
`Nat`; bit-level operations use `&&&`/`|||` with the explicit masks of the
source.  The physical-memory window (`kernel().phy_offset`) is modelled as the
identity, so a table is read and written directly at its physical frame
address: the state field `mem t i` is the raw word of entry `i` of the table
whose frame starts at address `t`.  The frame-supply service is the list
`supply`; `allocate_frame` pops its head and returns `none` when it is empty.
The intrusive free list (`Node`s materialised inside the blocks they describe)
is modelled as the list of `(start address, size)` pairs hanging off the
sentinel head, in list order.
-/

namespace NaviOS

def PAGE_SIZE : Nat := 4096

def ENTRY_COUNT : Nat := 512

def HIGHER_HALF_ENTRY : Nat := 256

def USIZE_MAX : Nat := 2 ^ 64 - 1

/-- Modelled from the spec: `align_down` (repository code not under `src/`)
"rounds an address down to the nearest multiple of the fixed unit size". -/
def align_down (addr align : Nat) : Nat := addr - addr % align

/-- Modelled from the spec: `align_up` (repository code not under `src/`)
rounds an address up to the nearest multiple of `align`. -/
def align_up (addr align : Nat) : Nat := align_down (addr + align - 1) align

structure Page where
  start_address : Nat
deriving DecidableEq, Repr

def Page.containing_address (address : Nat) : Page :=
  ⟨align_down address PAGE_SIZE⟩

/-- `IterPage { start, end }`; the `end` bound is called `stop` because `end`
is reserved in Lean. -/
structure IterPage where
  start : Page
  stop : Page
deriving DecidableEq, Repr

/-- The largest page-aligned address, `usize::MAX - (PAGE_SIZE - 1)` of
`Iterator for IterPage`. -/
def maxPageAddr : Nat := USIZE_MAX - (PAGE_SIZE - 1)

/-- One step of `IterPage::next`, iterated with fuel so that the function is
executable; `IterPage.pages` below instantiates the fuel with a bound that is
proved sufficient (`pagesAux_aligned`). -/
def pagesAux : Nat → Page → Page → List Page
  | 0, _, _ => []
  | fuel + 1, s, e =>
    if s.start_address ≤ e.start_address then
      if s.start_address < maxPageAddr then
        s :: pagesAux fuel ⟨s.start_address + PAGE_SIZE⟩ e
      else
        s :: pagesAux fuel s ⟨e.start_address - PAGE_SIZE⟩
    else []

/-- The full sequence of pages produced by repeatedly calling
`IterPage::next` on `it`. -/
def IterPage.pages (it : IterPage) : List Page :=
  pagesAux ((it.stop.start_address + PAGE_SIZE - it.start.start_address) / PAGE_SIZE + 1)
    it.start it.stop

def Page.iter_pages (start stop : Page) : IterPage := ⟨start, stop⟩

/-! ## Entry and flags -/

def EntryFlags.PRESENT : Nat := 1

def EntryFlags.WRITABLE : Nat := 2

def EntryFlags.NO_EXECUTE : Nat := 2 ^ 63

/-- The union of all bits declared in `bitflags! { pub struct EntryFlags }`:
bits 0 to 8 and bit 63.  `EntryFlags::from_bits_truncate` masks with it. -/
def FLAGS_MASK : Nat := 511 + 2 ^ 63

/-- The address mask `0x000FFFFF_FFFFF000` of `Entry::frame`. -/
def ADDR_MASK : Nat := 0x000FFFFFFFFFF000

/-- `EntryFlags::contains`: every bit of `b` is set in `f`. -/
def flagsContains (f b : Nat) : Bool := f &&& b == b

/-- Modelled from the spec: `Frame::containing_address` (repository code not
under `src/`) "rounds an address down to the nearest multiple of the fixed
unit size"; a `Frame` is identified by its start address. -/
def Frame.containing_address (address : Nat) : Nat := align_down address PAGE_SIZE

/-- `Entry::flags`: `EntryFlags::from_bits_truncate(self.0)`. -/
def Entry.flags (e : Nat) : Nat := e &&& FLAGS_MASK

/-- `Entry::frame`: the backing frame if PRESENT is set. -/
def Entry.frame (e : Nat) : Option Nat :=
  if flagsContains (Entry.flags e) EntryFlags.PRESENT then
    some (Frame.containing_address (e &&& ADDR_MASK))
  else
    none

/-- `Entry::new(flags, addr) = Self(addr | flags.bits())`. -/
def Entry.new (flags addr : Nat) : Nat := addr ||| flags

/-! ## Machine / allocator state -/

/-- The whole mutable state the excerpted core touches: the physical-memory
window seen as page tables (`mem`), the frame-supply service (`supply`), the
current root table from CR3 (`root`), and the `LinkedListAllocator` fields
(`freeList` for the chain hanging off the sentinel `head`, and `heap_end`). -/
structure St where
  mem : Nat → Nat → Nat
  supply : List Nat
  root : Nat
  freeList : List (Nat × Nat)
  heap_end : Nat

/-- Modelled from the spec: `RegionAllocator::allocate_frame` (repository code
not under `src/`) "returns nothing when physical memory is exhausted". -/
def allocate_frame (st : St) : Option (Nat × St) :=
  match st.supply with
  | [] => none
  | f :: rest => some (f, { st with supply := rest })

/-- Modelled from the spec: `RegionAllocator::deallocate_frame` returns a
frame to the free pool. -/
def deallocate_frame (st : St) (f : Nat) : St :=
  { st with supply := f :: st.supply }

/-- Writing one entry word of one table through the physical-memory window. -/
def writeEntry (st : St) (t i v : Nat) : St :=
  { st with mem := fun a j => if a = t ∧ j = i then v else st.mem a j }

/-- `PageTable::zeroize` of the table at frame address `t`. -/
def zeroize (st : St) (t : Nat) : St :=
  { st with mem := fun a j => if a = t then 0 else st.mem a j }

/-- Modelled from the spec: `translate` (repository code not under `src/`) is
the "pure bit-extraction" of the page offset and the four table indices,
"the standard 9-9-9-9-12 split of a 4-level, 4 KiB-page scheme". -/
def translate (a : Nat) : Nat × Nat × Nat × Nat × Nat :=
  (a % 4096, a / 2 ^ 12 % 512, a / 2 ^ 21 % 512, a / 2 ^ 30 % 512, a / 2 ^ 39 % 512)

def idx1 (a : Nat) : Nat := a / 2 ^ 12 % 512

def idx2 (a : Nat) : Nat := a / 2 ^ 21 % 512

def idx3 (a : Nat) : Nat := a / 2 ^ 30 % 512

def idx4 (a : Nat) : Nat := a / 2 ^ 39 % 512

inductive MapToError where
  | frameAllocationFailed
deriving DecidableEq, Repr

/-- `Entry::map(flags, frame_allocator)` on the entry at slot `i` of the table
at frame address `t`: if the entry is present, the union of the requested and
existing flags is re-applied and the resident child table is returned;
otherwise a fresh frame is obtained from the supply, installed with the
requested flags, and zero-initialised as a table. -/
def Entry.map (st : St) (t i flags : Nat) : Except MapToError (Nat × St) :=
  let e := st.mem t i
  if flagsContains (Entry.flags e) EntryFlags.PRESENT then
    let addr := align_down (e &&& ADDR_MASK) PAGE_SIZE
    .ok (addr, writeEntry st t i (Entry.new (flags ||| Entry.flags e) addr))
  else
    match st.supply with
    | [] => .error .frameAllocationFailed
    | f :: rest =>
      let st1 := writeEntry { st with supply := rest } t i (Entry.new flags f)
      .ok (f, zeroize st1 f)

/-- `PageTable::map_to(page, frame, flags)` on the root table at frame address
`root`: walks root → level 3 → level 2 → level 1 with `Entry::map` and
unconditionally overwrites the final leaf entry with `(frame, flags)`.  The
final state is returned in both the success and the failure case, mirroring
in-place mutation. -/
def PageTable.map_to (st : St) (root vaddr frameAddr flags : Nat) :
    Except MapToError Unit × St :=
  match Entry.map st root (idx4 vaddr) flags with
  | .error e => (.error e, st)
  | .ok (t3, st1) =>
    match Entry.map st1 t3 (idx3 vaddr) flags with
    | .error e => (.error e, st1)
    | .ok (t2, st2) =>
      match Entry.map st2 t2 (idx2 vaddr) flags with
      | .error e => (.error e, st2)
      | .ok (t1, st3) =>
        (.ok (), writeEntry st3 t1 (idx1 vaddr) (Entry.new flags frameAddr))

/-- Trace of the three child-table frame addresses `map_to` walks through,
a specification device used to state theorems about the walk. -/
def PageTable.map_to_tables (st : St) (root vaddr flags : Nat) :
    Option (Nat × Nat × Nat) :=
  match Entry.map st root (idx4 vaddr) flags with
  | .error _ => none
  | .ok (t3, st1) =>
    match Entry.map st1 t3 (idx3 vaddr) flags with
    | .error _ => none
    | .ok (t2, st2) =>
      match Entry.map st2 t2 (idx2 vaddr) flags with
      | .error _ => none
      | .ok (t1, _) => some (t3, t2, t1)

/-- A subsequent walk of the four-level hierarchy from `root` following
`Entry::frame()` at each level, returning the raw leaf entry of `vaddr`. -/
def walkLeaf (st : St) (root vaddr : Nat) : Option Nat :=
  (Entry.frame (st.mem root (idx4 vaddr))).bind fun t3 =>
    (Entry.frame (st.mem t3 (idx3 vaddr))).bind fun t2 =>
      (Entry.frame (st.mem t2 (idx2 vaddr))).bind fun t1 =>
        some (st.mem t1 (idx1 vaddr))

/-! ## Heap allocator

A free-list `Node` is the pair `(start address, size)`; `size_of::<Node>()`
is 16 and `align_of::<Node>()` is 8 on the 64-bit target (`size: usize` plus
`next: Option<&mut Node>`). -/

def NODE_SIZE : Nat := 16

def NODE_ALIGN : Nat := 8

/-- `Node::can_hold(size, align_amount)`: the aligned start address when the
node can hold the request, `none` for the `Err(())` outcome. -/
def Node.can_hold (node : Nat × Nat) (size align : Nat) : Option Nat :=
  let start := align_up node.1 align
  let stop := start + size
  if stop > node.1 + node.2 then none
  else
    let ecess_size := node.1 + node.2 - stop
    if ecess_size > 0 ∧ ecess_size < NODE_SIZE then none
    else some start

/-- The `while let Some(ref mut node) = current.next` search loop of
`find_free_node`: first node (in list order) whose `can_hold` succeeds,
returned together with its aligned start address and the list with that node
unlinked. -/
def searchList (l : List (Nat × Nat)) (size align : Nat) :
    Option ((Nat × Nat) × Nat × List (Nat × Nat)) :=
  match l with
  | [] => none
  | n :: rest =>
    match Node.can_hold n size align with
    | some addr => some (n, addr, rest)
    | none => (searchList rest size align).map fun x => (x.1, x.2.1, n :: x.2.2)

/-- `add_free_node(addr, size)` (without its two assertions, which are the
proposition `add_free_node_asserts` below): a new node is inserted at the
free-list head. -/
def add_free_node (st : St) (addr size : Nat) : St :=
  { st with freeList := (addr, size) :: st.freeList }

/-- The two `assert!`s guarding `add_free_node`. -/
def add_free_node_asserts (addr size : Nat) : Prop :=
  align_up addr NODE_ALIGN = addr ∧ NODE_SIZE ≤ size

def PAGES_PER_EXTEND : Nat := 128

/-- `PAGES_PER_EXTEND * PAGE_SIZE`, the byte size of one heap extension. -/
def EXTEND_BYTES : Nat := PAGE_SIZE * PAGES_PER_EXTEND

/-- The coalescing pass at the end of `extend_heap`: starting from the list
hanging off the sentinel head, the first node absorbs the following node as
long as that node's size is an exact multiple of `EXTEND_BYTES`. -/
def coalesce : List (Nat × Nat) → List (Nat × Nat)
  | [] => []
  | [n] => [n]
  | n :: m :: rest =>
    if m.2 % EXTEND_BYTES = 0 then coalesce ((n.1, n.2 + m.2) :: rest)
    else n :: m :: rest
termination_by l => l.length

/-- The `for page in iter` body of `extend_heap`: allocate a frame for each
page and map it PRESENT|WRITABLE through the current root table, stopping
with `Err(())` as soon as the supply is exhausted or `map_to` fails. -/
def extendLoop : List Page → St → Except Unit Unit × St
  | [], st => (.ok (), st)
  | p :: rest, st =>
    match allocate_frame st with
    | none => (.error (), st)
    | some (f, st1) =>
      match PageTable.map_to st1 st1.root p.start_address f
          (EntryFlags.PRESENT ||| EntryFlags.WRITABLE) with
      | (.error _, st2) => (.error (), st2)
      | (.ok (), st2) => extendLoop rest st2

/-- The tail of `extend_heap` after the mapping loop: on success, insert the
extension as one free node, run the coalescing pass, and advance `heap_end`;
on failure propagate `Err(())`. -/
def extendFinish (start_page end_page : Page) :
    Except Unit Unit × St → Except Unit Unit × St
  | (.error e, st1) => (.error e, st1)
  | (.ok (), st1) =>
    let st2 := add_free_node st1 start_page.start_address (PAGE_SIZE * PAGES_PER_EXTEND)
    let st3 := { st2 with freeList := coalesce st2.freeList }
    (.ok (), { st3 with heap_end := end_page.start_address + PAGE_SIZE })

/-- `LinkedListAllocator::extend_heap`: map `PAGES_PER_EXTEND` fresh pages
just above `heap_end`, insert the extension as one free node, run the
coalescing pass, and advance `heap_end`. -/
def extend_heap (st : St) : Except Unit Unit × St :=
  let start_page := Page.containing_address (st.heap_end + PAGE_SIZE)
  let end_page := Page.containing_address (st.heap_end + PAGE_SIZE * PAGES_PER_EXTEND)
  extendFinish start_page end_page (extendLoop (IterPage.pages ⟨start_page, end_page⟩) st)

/-- `Layout`: a size and a (power-of-two) alignment. -/
structure Layout where
  size : Nat
  align : Nat
deriving DecidableEq, Repr

/-- `LinkedListAllocator::size_align`: align the layout to `Node`'s alignment,
pad its size to that alignment, and make the size at least
`size_of::<Node>()`. -/
def size_align (l : Layout) : Nat × Nat :=
  let align := max l.align NODE_ALIGN
  let size := align_up l.size align
  (max size NODE_SIZE, align)

/-- `LinkedListAllocator::find_free_node(size, align)`: search the free list;
on failure grow the heap once with `extend_heap` and retry (the source
recurses; the recursion is bounded because every successful extension consumes
supply frames, so a fuel of `supply.length + 1` — passed by `alloc_mut` —
always suffices). -/
def find_free_node : Nat → St → Nat → Nat → Option ((Nat × Nat) × Nat) × St
  | 0, st, _, _ => (none, st)
  | fuel + 1, st, size, align =>
    match searchList st.freeList size align with
    | some (n, addr, rest) => (some (n, addr), { st with freeList := rest })
    | none =>
      match extend_heap st with
      | (.error (), st1) => (none, st1)
      | (.ok (), st1) => find_free_node fuel st1 size align

/-- The tail of `alloc_mut` after `find_free_node`: split the found block,
re-inserting any excess as a new free node; `none` models the null pointer. -/
def allocFinish (size : Nat) : Option ((Nat × Nat) × Nat) × St → Option Nat × St
  | (none, st1) => (none, st1)
  | (some (n, addr), st1) =>
    let alloc_end := addr + size
    let excess_size := n.1 + n.2 - alloc_end
    if excess_size > 0 then (some addr, add_free_node st1 alloc_end excess_size)
    else (some addr, st1)

/-- `LinkedListAllocator::alloc_mut(layout)`: first fit over the free list
(growing on demand inside `find_free_node`), splitting off the excess. -/
def alloc_mut (st : St) (l : Layout) : Option Nat × St :=
  let sa := size_align l
  allocFinish sa.1 (find_free_node (st.supply.length + 1) st sa.1 sa.2)

/-- `LinkedListAllocator::dealloc_mut(ptr, layout)`. -/
def dealloc_mut (st : St) (ptr : Nat) (l : Layout) : St :=
  add_free_node st ptr (size_align l).1

/-- Claim-version allocator for C4, following the claim's words: "if no node
can hold the request, the heap is grown once via `extend_heap` and the search
is retried; if growth also fails, `alloc_mut` returns a null pointer" — i.e.
at most one growth per allocation, with no further growth after the single
retry. -/
def alloc_mut_once (st : St) (l : Layout) : Option Nat × St :=
  let sa := size_align l
  match searchList st.freeList sa.1 sa.2 with
  | some (n, addr, rest) => allocFinish sa.1 (some (n, addr), { st with freeList := rest })
  | none =>
    match extend_heap st with
    | (.error (), st1) => (none, st1)
    | (.ok (), st1) =>
      match searchList st1.freeList sa.1 sa.2 with
      | some (n, addr, rest) =>
        allocFinish sa.1 (some (n, addr), { st1 with freeList := rest })
      | none => (none, st1)

/-! ## Recursive teardown -/

/-- `level - 1` at `u8` width (release-mode wrapping; debug mode would panic
on underflow at `level = 0`). -/
def wrapDec (level : Nat) : Nat := (level + 255) % 256

mutual

/-- `Entry::free(level)`: `frame().unwrap()`, a conditional
`deallocate_frame` at `level == 0`, and in all cases a recursive
`PageTable::free` on the pointed-to memory.  The result is the list of frame
addresses passed to `deallocate_frame`, in order; `none` means the call does
not complete normally within `fuel` steps (unbounded recursion, or the
`unwrap` of an absent entry failing). -/
def Entry.free (fuel : Nat) (mem : Nat → Nat → Nat) (e level : Nat) :
    Option (List Nat) :=
  match fuel with
  | 0 => none
  | fuel + 1 =>
    match Entry.frame e with
    | none => none
    | some frame =>
      let ds := if level = 0 then [frame] else []
      (PageTable.free fuel mem frame level).map fun l => ds ++ l
termination_by (fuel, 0)

/-- `PageTable::free(level)` of the table at frame address `t`: recurse into
the nonzero entries of the private half, then deallocate the table's own
frame. -/
def PageTable.free (fuel : Nat) (mem : Nat → Nat → Nat) (t level : Nat) :
    Option (List Nat) :=
  match fuel with
  | 0 => none
  | fuel + 1 =>
    (PageTable.freeEntries fuel mem t level (List.range HIGHER_HALF_ENTRY)).map
      fun l => l ++ [Frame.containing_address t]
termination_by (fuel, 1)

/-- The `for entry in &mut self.entries[0..HIGHER_HALF_ENTRY]` loop of
`PageTable::free`, over the listed slot indices. -/
def PageTable.freeEntries (fuel : Nat) (mem : Nat → Nat → Nat) (t level : Nat) :
    List Nat → Option (List Nat)
  | [] => some []
  | i :: rest =>
    if mem t i ≠ 0 then
      (Entry.free fuel mem (mem t i) (wrapDec level)).bind fun d1 =>
        (PageTable.freeEntries fuel mem t level rest).map fun d2 => d1 ++ d2
    else
      PageTable.freeEntries fuel mem t level rest
termination_by l => (fuel, 2 + l.length)

end

mutual

/-- Claim version of `Entry::free` following the claim's words for C7: the
teardown recurses only over the present entries of the private half and, for
a leaf-level entry, only returns the backing frame to the pool. -/
def Entry.freeSpec (fuel : Nat) (mem : Nat → Nat → Nat) (e level : Nat) :
    Option (List Nat) :=
  match fuel with
  | 0 => none
  | fuel + 1 =>
    match Entry.frame e with
    | none => none
    | some frame =>
      if level = 0 then some [frame]
      else PageTable.freeSpec fuel mem frame level
termination_by (fuel, 0)

/-- Claim version of `PageTable::free` for C7: recurse into the present
entries of `[0, 256)`, then deallocate the table's own frame. -/
def PageTable.freeSpec (fuel : Nat) (mem : Nat → Nat → Nat) (t level : Nat) :
    Option (List Nat) :=
  match fuel with
  | 0 => none
  | fuel + 1 =>
    (PageTable.freeSpecEntries fuel mem t level (List.range HIGHER_HALF_ENTRY)).map
      fun l => l ++ [Frame.containing_address t]
termination_by (fuel, 1)

/-- The entries loop of the claim version: only present entries are freed. -/
def PageTable.freeSpecEntries (fuel : Nat) (mem : Nat → Nat → Nat) (t level : Nat) :
    List Nat → Option (List Nat)
  | [] => some []
  | i :: rest =>
    if flagsContains (Entry.flags (mem t i)) EntryFlags.PRESENT then
      (Entry.freeSpec fuel mem (mem t i) (wrapDec level)).bind fun d1 =>
        (PageTable.freeSpecEntries fuel mem t level rest).map fun d2 => d1 ++ d2
    else
      PageTable.freeSpecEntries fuel mem t level rest
termination_by l => (fuel, 2 + l.length)

end

/-! ## Concrete memories and supplies used in the closed-input theorems -/

/-- A memory whose every word is the present entry `0x1001` (frame 4096,
PRESENT): reinterpreting any frame as a page table finds 256 nonzero
entries. -/
def memLoop : Nat → Nat → Nat := fun _ _ => 4097

/-- A table whose slot 0 holds the raw word 2 (WRITABLE but not PRESENT, and
nonzero); all other words are 0. -/
def memNonPresent : Nat → Nat → Nat := fun _ i => if i = 0 then 2 else 0

/-- The all-zero memory. -/
def memZero : Nat → Nat → Nat := fun _ _ => 0

/-- A memory that differs from `memZero` only in the higher-half slots. -/
def memHigh : Nat → Nat → Nat := fun _ i => if 256 ≤ i then 5 else 0

/-- A supply of `n` distinct page-aligned frames starting at `base`. -/
def mkSupply (base n : Nat) : List Nat :=
  (List.range n).map fun i => base + PAGE_SIZE * i

/-- A fresh all-zero address space with three spare frames, for the mapping
theorems. -/
def stMap : St := ⟨memZero, [8192, 12288, 16384], 4096, [], 0⟩

/-- An allocator state with an empty free list, heap end 0, and 1100 supply
frames: enough for two heap extensions but not three. -/
def stC4 : St := ⟨memZero, mkSupply 1048576 1100, 4096, [], 0⟩

/-- A request bigger than one heap extension (524288 bytes) but smaller than
two. -/
def lC4 : Layout := ⟨600000, 8⟩

/-- An allocator state whose free list holds one 64-byte node at 1024. -/
def stSmall : St := ⟨memZero, [], 4096, [(1024, 64)], 4096⟩

/-- A fresh allocator state with 1024 supply frames for the coalescing
scenario. -/
def stC5 : St := ⟨memZero, mkSupply 1048576 1024, 4096, [], 0⟩

/-! ## Bit-level lemmas for the entry encoding -/

lemma testBit_subset {a m : Nat} (h : a &&& m = a) {i : Nat}
    (hb : a.testBit i = true) : m.testBit i = true := by
  have h2 := congrArg (fun x => x.testBit i) h
  simp only [Nat.testBit_and] at h2
  rw [hb] at h2
  simpa using h2.symm

lemma disjoint_testBit {m m' : Nat} (h : m &&& m' = 0) {i : Nat} :
    ¬(m.testBit i = true ∧ m'.testBit i = true) := by
  rintro ⟨h1, h2⟩
  have h3 := congrArg (fun x => x.testBit i) h
  simp [Nat.testBit_and, h1, h2] at h3

lemma masks_disjoint : FLAGS_MASK &&& ADDR_MASK = 0 := by decide

lemma union_mask {a b m : Nat} (ha : a &&& m = a) (hb : b &&& m = b) :
    (a ||| b) &&& m = a ||| b := by
  apply Nat.eq_of_testBit_eq
  intro i
  simp only [Nat.testBit_and, Nat.testBit_or]
  cases h1 : a.testBit i with
  | true => simp [testBit_subset ha h1]
  | false =>
    cases h2 : b.testBit i with
    | true => simp [testBit_subset hb h2]
    | false => simp

lemma mask_filter_left {a b m m' : Nat} (ha : a &&& m = a) (hb : b &&& m' = b)
    (hd : m &&& m' = 0) : (a ||| b) &&& m = a := by
  apply Nat.eq_of_testBit_eq
  intro i
  simp only [Nat.testBit_and, Nat.testBit_or]
  cases h1 : a.testBit i with
  | true => simp [testBit_subset ha h1]
  | false =>
    cases h2 : b.testBit i with
    | true =>
      have hm' := testBit_subset hb h2
      cases h3 : m.testBit i with
      | true => exact absurd ⟨h3, hm'⟩ (disjoint_testBit hd)
      | false => simp
    | false => simp

lemma mask_filter_right {a b m m' : Nat} (ha : a &&& m = a) (hb : b &&& m' = b)
    (hd : m &&& m' = 0) : (a ||| b) &&& m' = b := by
  rw [Nat.lor_comm]
  refine mask_filter_left hb ha ?_
  apply Nat.eq_of_testBit_eq
  intro i
  simp only [Nat.testBit_and, Nat.zero_testBit]
  have h3 := congrArg (fun x => x.testBit i) hd
  simp only [Nat.testBit_and, Nat.zero_testBit] at h3
  rw [Bool.and_comm] at h3
  exact h3

lemma flagsContains_iff {f b : Nat} : flagsContains f b = true ↔ f &&& b = b := by
  simp [flagsContains]

lemma contains_union_left {a b p : Nat} (h : flagsContains a p = true) :
    flagsContains (a ||| b) p = true := by
  rw [flagsContains_iff] at h ⊢
  apply Nat.eq_of_testBit_eq
  intro i
  simp only [Nat.testBit_and, Nat.testBit_or]
  cases hp : p.testBit i with
  | true =>
    have ha : a.testBit i = true := by
      have h2 := congrArg (fun x => x.testBit i) h
      simp only [Nat.testBit_and] at h2
      rw [hp] at h2
      cases h3 : a.testBit i
      · rw [h3] at h2; simp at h2
      · rfl
    simp [ha, hp]
  | false => simp [hp]

lemma contains_self (a : Nat) : flagsContains a a = true := by
  simp [flagsContains, Nat.and_self]

lemma subset_flags_mask {e : Nat} : Entry.flags e &&& FLAGS_MASK = Entry.flags e := by
  simp [Entry.flags, Nat.land_assoc, Nat.and_self]

lemma aligned_of_addr_mask {c : Nat} (hc : c &&& ADDR_MASK = c) : c % 4096 = 0 := by
  have hd : ADDR_MASK &&& (2 ^ 12 - 1) = 0 := by decide
  have h4096 : (4096 : Nat) = 2 ^ 12 := by norm_num
  rw [h4096]
  apply Nat.eq_of_testBit_eq
  intro i
  simp only [Nat.testBit_mod_two_pow, Nat.zero_testBit]
  by_cases hi : i < 12
  · cases hb : c.testBit i with
    | true =>
      exfalso
      have hm := testBit_subset hc hb
      refine disjoint_testBit hd ⟨hm, ?_⟩
      have h5 : (4095 : Nat) = 2 ^ 12 - 1 := by norm_num
      rw [show (2 ^ 12 - 1 : Nat) = 4095 by norm_num] at hd ⊢
      rw [h5, Nat.testBit_two_pow_sub_one]
      simp [hi]
    | false => simp [hb]
  · simp [hi]

/-! ## Alignment arithmetic -/

lemma align_down_eq_mul (a n : Nat) : align_down a n = n * (a / n) := by
  have := Nat.div_add_mod a n
  unfold align_down
  omega

lemma align_down_of_mod_eq_zero {a n : Nat} (h : a % n = 0) : align_down a n = a := by
  unfold align_down
  omega

lemma align_down_mod (a n : Nat) : align_down a n % n = 0 := by
  rw [align_down_eq_mul]
  simp [Nat.mul_mod_right]

lemma align_down_add_mul (he k : Nat) :
    align_down (he + 4096 * k) 4096 = 4096 * (he / 4096) + 4096 * k := by
  rw [align_down_eq_mul]
  rw [Nat.add_mul_div_left _ _ (by norm_num : (0:Nat) < 4096)]
  ring

lemma align_up_mod (a n : Nat) : align_up a n % n = 0 := by
  unfold align_up
  exact align_down_mod _ n

lemma align_up_of_mod_eq_zero {a n : Nat} (hn : 0 < n) (h : a % n = 0) :
    align_up a n = a := by
  unfold align_up align_down
  have h3 : (n - 1) % n = n - 1 := Nat.mod_eq_of_lt (by omega)
  have h2 : (a + n - 1) % n = n - 1 := by
    have h4 : a + n - 1 = a + (n - 1) := by omega
    rw [h4, Nat.add_mod, h, h3]
    simp [h3]
  omega

/-! ## The page iterator -/

lemma pagesAux_nil {fuel : Nat} {s e : Page}
    (h : e.start_address < s.start_address) : pagesAux fuel s e = [] := by
  cases fuel with
  | zero => rfl
  | succ f => simp [pagesAux, Nat.not_le.mpr h]

lemma maxPageAddr_eq : maxPageAddr = 2 ^ 64 - 4096 := by
  norm_num [maxPageAddr, USIZE_MAX, PAGE_SIZE]

lemma pagesAux_aligned :
    ∀ (k s fuel : Nat), k + 1 ≤ fuel → 4096 ∣ s → s + 4096 * k < 2 ^ 64 →
      pagesAux fuel ⟨s⟩ ⟨s + 4096 * k⟩ =
        (List.range (k + 1)).map fun i => Page.mk (s + 4096 * i) := by
  intro k
  induction k with
  | zero =>
    intro s fuel hfuel hdvd hbound
    obtain ⟨f, rfl⟩ : ∃ f, fuel = f + 1 := ⟨fuel - 1, by omega⟩
    simp only [Nat.mul_zero, Nat.add_zero] at hbound ⊢
    by_cases hm : s < maxPageAddr
    · rw [show pagesAux (f + 1) ⟨s⟩ ⟨s⟩ = Page.mk s :: pagesAux f ⟨s + PAGE_SIZE⟩ ⟨s⟩ by
        simp [pagesAux, hm]]
      rw [pagesAux_nil (by simp [PAGE_SIZE] : (⟨s⟩ : Page).start_address < s + PAGE_SIZE)]
      rw [show List.range 1 = [0] from rfl]
      simp
    · have hpos : 0 < s := by
        have hme := maxPageAddr_eq
        omega
      rw [show pagesAux (f + 1) ⟨s⟩ ⟨s⟩ = Page.mk s :: pagesAux f ⟨s⟩ ⟨s - PAGE_SIZE⟩ by
        simp [pagesAux, hm]]
      rw [pagesAux_nil (by simp [PAGE_SIZE]; omega : (⟨s - PAGE_SIZE⟩ : Page).start_address < s)]
      rw [show List.range 1 = [0] from rfl]
      simp
  | succ k ih =>
    intro s fuel hfuel hdvd hbound
    obtain ⟨f, rfl⟩ : ∃ f, fuel = f + 1 := ⟨fuel - 1, by omega⟩
    have hmax : s < maxPageAddr := by
      have hme := maxPageAddr_eq
      have h4 : 4096 * (k + 1) ≥ 4096 := by omega
      omega
    have hle : s ≤ s + 4096 * (k + 1) := by omega
    have harg : s + 4096 * (k + 1) = s + 4096 + 4096 * k := by ring
    have hstep : pagesAux (f + 1) ⟨s⟩ ⟨s + 4096 * (k + 1)⟩ =
        Page.mk s :: pagesAux f ⟨s + 4096⟩ ⟨s + 4096 * (k + 1)⟩ := by
      simp [pagesAux, PAGE_SIZE, hle, hmax]
    rw [hstep, harg,
      ih (s + 4096) f (by omega) (by omega) (by omega)]
    conv_rhs => rw [List.range_succ_eq_map]
    rw [List.map_cons, List.map_map]
    congr 1
    apply List.map_congr_left
    intro i _
    simp only [Function.comp]
    congr 1
    omega

lemma align_down_mono {a b n : Nat} (h : a ≤ b) : align_down a n ≤ align_down b n := by
  rw [align_down_eq_mul, align_down_eq_mul]
  exact Nat.mul_le_mul_left _ (Nat.div_le_div_right h)

lemma pages_aligned {s e : Nat} (hs : 4096 ∣ s) (he : 4096 ∣ e) (hle : s ≤ e)
    (hbound : e < 2 ^ 64) :
    IterPage.pages ⟨⟨s⟩, ⟨e⟩⟩ =
      (List.range ((e - s) / 4096 + 1)).map fun i => Page.mk (s + 4096 * i) := by
  have hd : 4096 ∣ (e - s) := Nat.dvd_sub' he hs
  obtain ⟨k, hk⟩ := hd
  have hek : e = s + 4096 * k := by omega
  have hdiv : (e - s) / 4096 = k := by
    rw [hk]
    exact Nat.mul_div_cancel_left k (by norm_num)
  have hfuel : (e + PAGE_SIZE - s) / PAGE_SIZE + 1 = k + 2 := by
    simp only [PAGE_SIZE]
    rw [hek]
    have : s + 4096 * k + 4096 - s = 4096 * (k + 1) := by ring_nf; omega
    rw [this, Nat.mul_div_cancel_left _ (by norm_num : (0:Nat) < 4096)]
  rw [hdiv]
  unfold IterPage.pages
  simp only [hfuel]
  rw [hek]
  exact pagesAux_aligned k s (k + 2) (by omega) hs (by omega)

/-! ## Entry encoding lemmas -/

lemma new_entry_flags {F c : Nat} (hF : F &&& FLAGS_MASK = F)
    (hc : c &&& ADDR_MASK = c) : Entry.flags (Entry.new F c) = F := by
  unfold Entry.flags Entry.new
  refine mask_filter_right hc hF ?_
  rw [Nat.land_comm]
  exact masks_disjoint

lemma new_entry_addr {F c : Nat} (hF : F &&& FLAGS_MASK = F)
    (hc : c &&& ADDR_MASK = c) : Entry.new F c &&& ADDR_MASK = c := by
  unfold Entry.new
  refine mask_filter_left hc hF ?_
  rw [Nat.land_comm]
  exact masks_disjoint

lemma new_entry_frame {F c : Nat} (hF : F &&& FLAGS_MASK = F)
    (hc : c &&& ADDR_MASK = c)
    (hp : flagsContains F EntryFlags.PRESENT = true) :
    Entry.frame (Entry.new F c) = some c := by
  unfold Entry.frame
  rw [new_entry_flags hF hc, hp, new_entry_addr hF hc]
  simp only [if_true]
  unfold Frame.containing_address PAGE_SIZE
  rw [align_down_of_mod_eq_zero (aligned_of_addr_mask hc)]

/-! ## State-update lemmas -/

lemma writeEntry_mem_same (st : St) (t i v : Nat) :
    (writeEntry st t i v).mem t i = v := by
  simp [writeEntry]

lemma writeEntry_mem_other (st : St) {t i : Nat} (v : Nat) {a j : Nat}
    (h : ¬(a = t ∧ j = i)) : (writeEntry st t i v).mem a j = st.mem a j := by
  simp only [writeEntry]
  rw [if_neg h]

lemma zeroize_mem_other (st : St) {t a : Nat} (j : Nat) (h : a ≠ t) :
    (zeroize st t).mem a j = st.mem a j := by
  simp only [zeroize]
  rw [if_neg h]

/-! ## Entry.map lemmas -/

lemma entry_map_error_iff {st : St} {t i fl : Nat} :
    Entry.map st t i fl = .error .frameAllocationFailed ↔
      (flagsContains (Entry.flags (st.mem t i)) EntryFlags.PRESENT = false ∧
        st.supply = []) := by
  unfold Entry.map
  by_cases hp : flagsContains (Entry.flags (st.mem t i)) EntryFlags.PRESENT = true
  · simp [hp]
  · cases hs : st.supply with
    | nil => simp [hp, hs]
    | cons f rest => simp [hp, hs]

lemma entry_map_ok_preserves {st : St} {t i fl c : Nat} {st' : St}
    (h : Entry.map st t i fl = .ok (c, st')) :
    st'.root = st.root ∧ st'.freeList = st.freeList ∧ st'.heap_end = st.heap_end ∧
      (st'.supply = st.supply ∨ st'.supply = st.supply.tail) := by
  unfold Entry.map at h
  by_cases hp : flagsContains (Entry.flags (st.mem t i)) EntryFlags.PRESENT = true
  · simp only [hp, if_true] at h
    obtain ⟨h1, h2⟩ := Prod.ext_iff.mp (Except.ok.inj h)
    subst h2
    simp [writeEntry]
  · simp only [hp, if_false] at h
    cases hs : st.supply with
    | nil => rw [hs] at h; simp at h
    | cons f rest =>
      rw [hs] at h
      obtain ⟨h1, h2⟩ := Prod.ext_iff.mp (Except.ok.inj h)
      subst h2
      simp [zeroize, writeEntry, hs]

lemma entry_map_ok_of_supply {st : St} (t i fl : Nat) (h : st.supply ≠ []) :
    ∃ c st', Entry.map st t i fl = .ok (c, st') := by
  unfold Entry.map
  by_cases hp : flagsContains (Entry.flags (st.mem t i)) EntryFlags.PRESENT = true
  · simp only [hp, if_true]
    exact ⟨_, _, rfl⟩
  · cases hs : st.supply with
    | nil => exact absurd hs h
    | cons f rest =>
      simp only [hp, hs]
      exact ⟨_, _, rfl⟩

lemma entry_map_ok_mem {st : St} {t i fl c : Nat} {st' : St}
    (hfl : fl &&& FLAGS_MASK = fl)
    (h : Entry.map st t i fl = .ok (c, st')) (htc : t ≠ c) :
    ∃ F, F &&& FLAGS_MASK = F ∧ flagsContains F fl = true ∧
      (flagsContains fl EntryFlags.PRESENT = true →
        flagsContains F EntryFlags.PRESENT = true) ∧
      st'.mem t i = Entry.new F c ∧
      (∀ a j, a ≠ t → a ≠ c → st'.mem a j = st.mem a j) := by
  unfold Entry.map at h
  by_cases hp : flagsContains (Entry.flags (st.mem t i)) EntryFlags.PRESENT = true
  · simp only [hp, if_true] at h
    have h2 := Except.ok.inj h
    rw [Prod.mk.injEq] at h2
    obtain ⟨hc, hst⟩ := h2
    subst hc
    subst hst
    refine ⟨fl ||| Entry.flags (st.mem t i), ?_, ?_, ?_, ?_, ?_⟩
    · exact union_mask hfl subset_flags_mask
    · exact contains_union_left (contains_self fl)
    · intro hpr
      exact contains_union_left hpr
    · rw [writeEntry_mem_same]
    · intro a j ha _
      exact writeEntry_mem_other _ _ (by tauto)
  · simp only [hp, if_false] at h
    cases hs : st.supply with
    | nil => rw [hs] at h; simp at h
    | cons f rest =>
      rw [hs] at h
      have h2 := Except.ok.inj h
      rw [Prod.mk.injEq] at h2
      obtain ⟨hc, hst⟩ := h2
      subst hc
      subst hst
      refine ⟨fl, hfl, contains_self fl, fun hpr => hpr, ?_, ?_⟩
      · rw [zeroize_mem_other _ _ htc, writeEntry_mem_same]
      · intro a j ha hacc
        rw [zeroize_mem_other _ _ hacc, writeEntry_mem_other _ _ (by tauto)]

lemma entry_map_supply_bounds {st : St} {t i fl c : Nat} {st' : St}
    (h : Entry.map st t i fl = .ok (c, st')) :
    st.supply.length - 1 ≤ st'.supply.length ∧
      st'.supply.length ≤ st.supply.length := by
  obtain ⟨-, -, -, hsup⟩ := entry_map_ok_preserves h
  cases hsup with
  | inl h1 => rw [h1]; omega
  | inr h1 =>
    rw [h1]
    cases st.supply with
    | nil => simp
    | cons g rest => simp

/-! ## map_to lemmas -/

lemma map_to_preserves (st : St) (root a fr fl : Nat) :
    (PageTable.map_to st root a fr fl).2.root = st.root ∧
      (PageTable.map_to st root a fr fl).2.freeList = st.freeList ∧
      (PageTable.map_to st root a fr fl).2.heap_end = st.heap_end := by
  unfold PageTable.map_to
  cases e1 : Entry.map st root (idx4 a) fl with
  | error err => simp
  | ok pr1 =>
    obtain ⟨t3, st1⟩ := pr1
    obtain ⟨q1, q2, q3, -⟩ := entry_map_ok_preserves e1
    cases e2 : Entry.map st1 t3 (idx3 a) fl with
    | error err => simp only [e2]; simp [q1, q2, q3]
    | ok pr2 =>
      obtain ⟨t2, st2⟩ := pr2
      obtain ⟨r1, r2, r3, -⟩ := entry_map_ok_preserves e2
      cases e3 : Entry.map st2 t2 (idx2 a) fl with
      | error err => simp only [e2, e3]; simp [q1, q2, q3, r1, r2, r3]
      | ok pr3 =>
        obtain ⟨t1, st3⟩ := pr3
        obtain ⟨s1, s2, s3, -⟩ := entry_map_ok_preserves e3
        simp only [e2, e3]
        simp [writeEntry, q1, q2, q3, r1, r2, r3, s1, s2, s3]

lemma map_to_ok_of_supply (st : St) (root a fr fl : Nat)
    (h : 3 ≤ st.supply.length) :
    (PageTable.map_to st root a fr fl).1 = .ok () ∧
      st.supply.length - 3 ≤ (PageTable.map_to st root a fr fl).2.supply.length ∧
      (PageTable.map_to st root a fr fl).2.supply.length ≤ st.supply.length := by
  have h1ne : st.supply ≠ [] := by
    intro hc
    rw [hc] at h
    simp at h
  obtain ⟨t3, st1, e1⟩ := @entry_map_ok_of_supply st root (idx4 a) fl h1ne
  obtain ⟨b1a, b1b⟩ := entry_map_supply_bounds e1
  have h2ne : st1.supply ≠ [] := by
    intro hc
    rw [hc] at b1a
    simp at b1a
    omega
  obtain ⟨t2, st2, e2⟩ := @entry_map_ok_of_supply st1 t3 (idx3 a) fl h2ne
  obtain ⟨b2a, b2b⟩ := entry_map_supply_bounds e2
  have h3ne : st2.supply ≠ [] := by
    intro hc
    rw [hc] at b2a
    simp at b2a
    omega
  obtain ⟨t1, st3, e3⟩ := @entry_map_ok_of_supply st2 t2 (idx2 a) fl h3ne
  obtain ⟨b3a, b3b⟩ := entry_map_supply_bounds e3
  unfold PageTable.map_to
  simp only [e1, e2, e3]
  refine ⟨trivial, ?_, ?_⟩ <;> simp [writeEntry] <;> omega

/-! ## extendLoop lemmas -/

lemma extendLoop_preserves (ps : List Page) :
    ∀ st : St, (extendLoop ps st).2.root = st.root ∧
      (extendLoop ps st).2.freeList = st.freeList ∧
      (extendLoop ps st).2.heap_end = st.heap_end := by
  induction ps with
  | nil => intro st; simp [extendLoop]
  | cons p rest ih =>
    intro st
    cases hs : st.supply with
    | nil =>
      have ha : allocate_frame st = none := by
        unfold allocate_frame
        rw [hs]
      simp [extendLoop, ha]
    | cons f rest2 =>
      have ha : allocate_frame st = some (f, { st with supply := rest2 }) := by
        unfold allocate_frame
        rw [hs]
      cases hm : PageTable.map_to { st with supply := rest2 } st.root
          p.start_address f (EntryFlags.PRESENT ||| EntryFlags.WRITABLE) with
      | mk r st2 =>
        obtain ⟨m1, m2, m3⟩ := map_to_preserves { st with supply := rest2 } st.root
          p.start_address f (EntryFlags.PRESENT ||| EntryFlags.WRITABLE)
        rw [hm] at m1 m2 m3
        simp only at m1 m2 m3
        cases r with
        | error err => simp [extendLoop, ha, hm, m1, m2, m3]
        | ok u =>
          cases u
          obtain ⟨i1, i2, i3⟩ := ih st2
          simp only [extendLoop, ha, hm]
          simp only [i1, i2, i3, m1, m2, m3]
          simp

lemma extendLoop_ok (ps : List Page) :
    ∀ st : St, 4 * ps.length ≤ st.supply.length →
      (extendLoop ps st).1 = .ok () ∧
        st.supply.length - 4 * ps.length ≤ (extendLoop ps st).2.supply.length ∧
        (extendLoop ps st).2.supply.length ≤ st.supply.length := by
  induction ps with
  | nil => intro st h; simp [extendLoop]
  | cons p rest ih =>
    intro st h
    have hlen : 4 ≤ st.supply.length := by
      simp only [List.length_cons] at h
      omega
    cases hs : st.supply with
    | nil => rw [hs] at hlen; simp at hlen
    | cons f rest2 =>
      have ha : allocate_frame st = some (f, { st with supply := rest2 }) := by
        unfold allocate_frame
        rw [hs]
      have hr2 : st.supply.length = rest2.length + 1 := by
        rw [hs]
        simp
      have hlen1 : ({ st with supply := rest2 } : St).supply.length = rest2.length := by
        simp
      have h3 : 3 ≤ ({ st with supply := rest2 } : St).supply.length := by
        rw [hlen1]
        omega
      obtain ⟨mok, mlow, mhigh⟩ := map_to_ok_of_supply { st with supply := rest2 } st.root
        p.start_address f (EntryFlags.PRESENT ||| EntryFlags.WRITABLE) h3
      cases hm : PageTable.map_to { st with supply := rest2 } st.root
          p.start_address f (EntryFlags.PRESENT ||| EntryFlags.WRITABLE) with
      | mk r st2 =>
        rw [hm] at mok mlow mhigh
        simp only at mok mlow mhigh
        subst mok
        rw [hlen1] at mlow mhigh
        have hrec := ih st2 (by
          simp only [List.length_cons] at h
          omega)
        obtain ⟨rok, rlow, rhigh⟩ := hrec
        simp only [extendLoop, ha, hm]
        refine ⟨rok, ?_, ?_⟩ <;>
          simp only [List.length_cons] <;> omega

/-! ## extend_heap lemmas -/

lemma align_down_le (a n : Nat) : align_down a n ≤ a := by
  unfold align_down
  omega

lemma pagesAux_cons (n : Nat) (s e : Page)
    (hle : s.start_address ≤ e.start_address) :
    ∃ p rest, pagesAux (n + 1) s e = p :: rest := by
  unfold pagesAux
  rw [if_pos hle]
  by_cases hm : s.start_address < maxPageAddr
  · rw [if_pos hm]
    exact ⟨_, _, rfl⟩
  · rw [if_neg hm]
    exact ⟨_, _, rfl⟩

lemma extend_heap_def (st : St) : extend_heap st =
    extendFinish (Page.containing_address (st.heap_end + PAGE_SIZE))
      (Page.containing_address (st.heap_end + PAGE_SIZE * PAGES_PER_EXTEND))
      (extendLoop (IterPage.pages
        ⟨Page.containing_address (st.heap_end + PAGE_SIZE),
          Page.containing_address (st.heap_end + PAGE_SIZE * PAGES_PER_EXTEND)⟩) st) := rfl

lemma extend_heap_error_of_empty {st : St} (h : st.supply = []) :
    (extend_heap st).1 = .error () ∧ (extend_heap st).2 = st := by
  have hle : (Page.containing_address (st.heap_end + PAGE_SIZE)).start_address ≤
      (Page.containing_address (st.heap_end + PAGE_SIZE * PAGES_PER_EXTEND)).start_address := by
    unfold Page.containing_address
    exact align_down_mono (by unfold PAGE_SIZE PAGES_PER_EXTEND; omega)
  obtain ⟨p, rest, hpr⟩ := pagesAux_cons
    (((Page.containing_address (st.heap_end + PAGE_SIZE * PAGES_PER_EXTEND)).start_address
        + PAGE_SIZE -
      (Page.containing_address (st.heap_end + PAGE_SIZE)).start_address) / PAGE_SIZE)
    (Page.containing_address (st.heap_end + PAGE_SIZE))
    (Page.containing_address (st.heap_end + PAGE_SIZE * PAGES_PER_EXTEND)) hle
  have ha : allocate_frame st = none := by
    unfold allocate_frame
    rw [h]
  have hloop : extendLoop (IterPage.pages
      ⟨Page.containing_address (st.heap_end + PAGE_SIZE),
        Page.containing_address (st.heap_end + PAGE_SIZE * PAGES_PER_EXTEND)⟩) st =
      (.error (), st) := by
    unfold IterPage.pages
    rw [hpr]
    unfold extendLoop
    rw [ha]
  rw [extend_heap_def, hloop]
  exact ⟨rfl, rfl⟩

set_option maxRecDepth 100000 in
lemma extend_heap_error_preserves {st : St} (h : (extend_heap st).1 = .error ()) :
    (extend_heap st).2.freeList = st.freeList ∧
      (extend_heap st).2.heap_end = st.heap_end ∧
      (extend_heap st).2.root = st.root := by
  rw [extend_heap_def] at h ⊢
  revert h
  cases hl : extendLoop (IterPage.pages
      ⟨Page.containing_address (st.heap_end + PAGE_SIZE),
        Page.containing_address (st.heap_end + PAGE_SIZE * PAGES_PER_EXTEND)⟩) st with
  | mk r st1 =>
    intro h
    obtain ⟨p1, p2, p3⟩ := extendLoop_preserves (IterPage.pages
      ⟨Page.containing_address (st.heap_end + PAGE_SIZE),
        Page.containing_address (st.heap_end + PAGE_SIZE * PAGES_PER_EXTEND)⟩) st
    rw [hl] at p1 p2 p3
    try simp only at p1 p2 p3
    cases r with
    | error e =>
      simp only [extendFinish]
      exact ⟨p2, p3, p1⟩
    | ok u =>
      cases u
      simp only [extendFinish] at h
      cases h

lemma extend_heap_ok_of_supply {st : St} (h : 512 ≤ st.supply.length)
    (hov : st.heap_end + 524288 < 2 ^ 64) :
    (extend_heap st).1 = .ok () ∧
      (extend_heap st).2.root = st.root ∧
      (extend_heap st).2.freeList =
        coalesce ((4096 * (st.heap_end / 4096) + 4096, 524288) :: st.freeList) ∧
      (extend_heap st).2.heap_end = 4096 * (st.heap_end / 4096) + 4096 * 128 + 4096 ∧
      st.supply.length - 512 ≤ (extend_heap st).2.supply.length ∧
      (extend_heap st).2.supply.length ≤ st.supply.length := by
  have hsp : Page.containing_address (st.heap_end + PAGE_SIZE) =
      ⟨4096 * (st.heap_end / 4096) + 4096⟩ := by
    unfold Page.containing_address PAGE_SIZE
    have h1 := align_down_add_mul st.heap_end 1
    rw [Nat.mul_one] at h1
    rw [h1]
  have hep : Page.containing_address (st.heap_end + PAGE_SIZE * PAGES_PER_EXTEND) =
      ⟨4096 * (st.heap_end / 4096) + 4096 * 128⟩ := by
    unfold Page.containing_address PAGE_SIZE PAGES_PER_EXTEND
    rw [align_down_add_mul st.heap_end 128]
  have hqle : 4096 * (st.heap_end / 4096) ≤ st.heap_end := by
    have h1 := align_down_eq_mul st.heap_end 4096
    have h2 := align_down_le st.heap_end 4096
    omega
  have hpag : IterPage.pages ⟨⟨4096 * (st.heap_end / 4096) + 4096⟩,
      ⟨4096 * (st.heap_end / 4096) + 4096 * 128⟩⟩ =
      (List.range 128).map fun i =>
        Page.mk (4096 * (st.heap_end / 4096) + 4096 + 4096 * i) := by
    have hcount : (4096 * (st.heap_end / 4096) + 4096 * 128 -
        (4096 * (st.heap_end / 4096) + 4096)) / 4096 + 1 = 128 := by
      have h1 : 4096 * (st.heap_end / 4096) + 4096 * 128 -
          (4096 * (st.heap_end / 4096) + 4096) = 4096 * 127 := by omega
      rw [h1, Nat.mul_div_cancel_left _ (by norm_num : (0:Nat) < 4096)]
    have h2 := pages_aligned (s := 4096 * (st.heap_end / 4096) + 4096)
      (e := 4096 * (st.heap_end / 4096) + 4096 * 128)
      ⟨st.heap_end / 4096 + 1, by ring⟩ ⟨st.heap_end / 4096 + 128, by ring⟩
      (by omega) (by omega)
    rw [hcount] at h2
    exact h2
  obtain ⟨lok, llow, lhigh⟩ := extendLoop_ok
    ((List.range 128).map fun i =>
      Page.mk (4096 * (st.heap_end / 4096) + 4096 + 4096 * i)) st
    (by simp; omega)
  obtain ⟨p1, p2, p3⟩ := extendLoop_preserves
    ((List.range 128).map fun i =>
      Page.mk (4096 * (st.heap_end / 4096) + 4096 + 4096 * i)) st
  rw [extend_heap_def, hsp, hep, hpag]
  cases hl : extendLoop
      ((List.range 128).map fun i =>
        Page.mk (4096 * (st.heap_end / 4096) + 4096 + 4096 * i)) st with
  | mk r st1 =>
    rw [hl] at lok llow lhigh p1 p2 p3
    try simp only at lok llow lhigh p1 p2 p3
    subst lok
    simp only [extendFinish, add_free_node]
    refine ⟨trivial, p1, ?_, ?_, ?_, ?_⟩ <;>
      (try simp only [p2]) <;>
      first
        | ((try simp only [List.length_map, List.length_range] at llow lhigh ⊢); omega)
        | (norm_num [PAGE_SIZE, PAGES_PER_EXTEND])

/-! ## Coalesce characterization -/

lemma coalesce_cons (n : Nat × Nat) (rest : List (Nat × Nat)) :
    coalesce (n :: rest) =
      (n.1, n.2 + ((rest.takeWhile fun m => m.2 % EXTEND_BYTES == 0).map Prod.snd).sum) ::
        rest.dropWhile fun m => m.2 % EXTEND_BYTES == 0 := by
  induction rest generalizing n with
  | nil => simp [coalesce]
  | cons m rest2 ih =>
    by_cases hm : m.2 % EXTEND_BYTES = 0
    · rw [show coalesce (n :: m :: rest2) = coalesce ((n.1, n.2 + m.2) :: rest2) by
        rw [coalesce]
        rw [if_pos hm]]
      rw [ih]
      simp only [List.takeWhile_cons, List.dropWhile_cons, hm]
      simp [Nat.add_assoc]
    · rw [show coalesce (n :: m :: rest2) = n :: m :: rest2 by
        rw [coalesce]
        rw [if_neg hm]]
      simp only [List.takeWhile_cons, List.dropWhile_cons]
      simp [hm]

/-! ## searchList and find_free_node lemmas

`extend_heap` is made irreducible from here on so that unification never
tries to evaluate the page-iterator arithmetic on a symbolic state; every
later fact about it goes through the lemmas above. -/

attribute [irreducible] extend_heap

lemma can_hold_some_addr {n : Nat × Nat} {size align addr : Nat}
    (h : Node.can_hold n size align = some addr) : addr = align_up n.1 align := by
  simp only [Node.can_hold] at h
  split at h
  · cases h
  · split at h
    · cases h
    · exact (Option.some.inj h).symm

lemma searchList_none_iff (l : List (Nat × Nat)) (size align : Nat) :
    searchList l size align = none ↔
      ∀ n ∈ l, Node.can_hold n size align = none := by
  induction l with
  | nil => simp [searchList]
  | cons k rest ih =>
    simp only [searchList]
    cases hch : Node.can_hold k size align with
    | some addr => simp [hch]
    | none => simp [hch, ih, Option.map_eq_none']

lemma searchList_some_spec :
    ∀ (l : List (Nat × Nat)) {size align : Nat} {n : Nat × Nat} {addr : Nat}
      {rest : List (Nat × Nat)},
      searchList l size align = some (n, addr, rest) →
      ∃ l1 l2, l = l1 ++ n :: l2 ∧ rest = l1 ++ l2 ∧
        Node.can_hold n size align = some addr ∧
        ∀ m ∈ l1, Node.can_hold m size align = none := by
  intro l
  induction l with
  | nil =>
    intro size align n addr rest h
    simp [searchList] at h
  | cons k ktail ih =>
    intro size align n addr rest h
    simp only [searchList] at h
    cases hch : Node.can_hold k size align with
    | some a =>
      rw [hch] at h
      have h2 := Option.some.inj h
      have hn := congrArg Prod.fst h2
      have ha := congrArg (fun x => x.2.1) h2
      have hr := congrArg (fun x => x.2.2) h2
      simp only at hn ha hr
      subst hn
      subst ha
      subst hr
      exact ⟨[], ktail, by simp, by simp, hch, by simp⟩
    | none =>
      rw [hch] at h
      rw [Option.map_eq_some'] at h
      obtain ⟨x, hx, hfx⟩ := h
      obtain ⟨m, a2, r2⟩ := x
      have hm := congrArg Prod.fst hfx
      have ha2 := congrArg (fun y => y.2.1) hfx
      have hr2 := congrArg (fun y => y.2.2) hfx
      simp only at hm ha2 hr2
      subst hm
      subst ha2
      subst hr2
      obtain ⟨l1, l2, he1, he2, hc, hall⟩ := ih hx
      refine ⟨k :: l1, l2, by simp [he1], by simp [he2], hc, ?_⟩
      intro m2 hm2
      rcases List.mem_cons.mp hm2 with h3 | h3
      · subst h3
        exact hch
      · exact hall m2 h3

lemma find_free_node_found {fuel : Nat} {st : St} {size align : Nat}
    {n : Nat × Nat} {addr : Nat} {rest : List (Nat × Nat)}
    (h : searchList st.freeList size align = some (n, addr, rest)) :
    find_free_node (fuel + 1) st size align =
      (some (n, addr), { st with freeList := rest }) := by
  unfold find_free_node
  rw [h]

lemma find_free_node_nofit_error {fuel : Nat} {st : St} {size align : Nat}
    (hsearch : searchList st.freeList size align = none)
    (herr : (extend_heap st).1 = .error ()) :
    find_free_node (fuel + 1) st size align = (none, (extend_heap st).2) := by
  unfold find_free_node
  rw [hsearch]
  cases he : extend_heap st with
  | mk r st1 =>
    rw [he] at herr
    simp only at herr
    subst herr
    rfl

lemma find_free_node_nofit_grow {fuel : Nat} {st st' : St} {size align : Nat}
    (hsearch : searchList st.freeList size align = none)
    (hok : extend_heap st = (.ok (), st')) :
    find_free_node (fuel + 1) st size align = find_free_node fuel st' size align := by
  conv_lhs => unfold find_free_node
  rw [hsearch, hok]

lemma find_free_node_some_can_hold :
    ∀ (fuel : Nat) {st : St} {size align : Nat} {n : Nat × Nat} {addr : Nat} {st' : St},
      find_free_node fuel st size align = (some (n, addr), st') →
      Node.can_hold n size align = some addr := by
  intro fuel
  induction fuel with
  | zero =>
    intro st size align n addr st' h
    simp [find_free_node] at h
  | succ f ih =>
    intro st size align n addr st' h
    unfold find_free_node at h
    cases hse : searchList st.freeList size align with
    | some x =>
      obtain ⟨m, a2, r2⟩ := x
      rw [hse] at h
      have h2 := (Prod.ext_iff.mp h).1
      simp only at h2
      have h3 := Option.some.inj h2
      rw [Prod.mk.injEq] at h3
      obtain ⟨hm, ha⟩ := h3
      subst hm
      subst ha
      obtain ⟨l1, l2, -, -, hc, -⟩ := searchList_some_spec _ hse
      exact hc
    | none =>
      rw [hse] at h
      cases he : extend_heap st with
      | mk r st1 =>
        rw [he] at h
        cases r with
        | error e =>
          cases e
          simp at h
        | ok u =>
          cases u
          exact ih h

lemma alloc_mut_def (st : St) (l : Layout) :
    alloc_mut st l = allocFinish (size_align l).1
      (find_free_node (st.supply.length + 1) st (size_align l).1 (size_align l).2) := rfl

lemma alloc_mut_nofit_error {st : St} {l : Layout}
    (hno : ∀ n ∈ st.freeList, Node.can_hold n (size_align l).1 (size_align l).2 = none)
    (herr : (extend_heap st).1 = .error ()) :
    (alloc_mut st l).1 = none := by
  rw [alloc_mut_def,
    find_free_node_nofit_error ((searchList_none_iff _ _ _).mpr hno) herr]
  rfl

lemma alloc_mut_fit {st : St} {l : Layout} {n : Nat × Nat} {addr : Nat}
    {rest : List (Nat × Nat)}
    (h : searchList st.freeList (size_align l).1 (size_align l).2 = some (n, addr, rest)) :
    (alloc_mut st l).1 = some addr := by
  rw [alloc_mut_def, find_free_node_found h]
  simp only [allocFinish]
  split <;> rfl

lemma size_align_fst_ge (l : Layout) : NODE_SIZE ≤ (size_align l).1 := by
  simp only [size_align]
  exact Nat.le_max_right _ _

lemma dvd_size_align_snd {l : Layout} (hpow : ∃ k, l.align = 2 ^ k) :
    l.align ∣ (size_align l).2 ∧ NODE_ALIGN ∣ (size_align l).2 := by
  obtain ⟨k, hk⟩ := hpow
  simp only [size_align, NODE_ALIGN]
  by_cases hk3 : k ≤ 3
  · have hle : l.align ≤ 8 := by
      rw [hk]
      calc 2 ^ k ≤ 2 ^ 3 := Nat.pow_le_pow_right (by norm_num) hk3
        _ = 8 := by norm_num
    rw [Nat.max_eq_right hle]
    refine ⟨?_, dvd_refl 8⟩
    rw [hk, show (8 : Nat) = 2 ^ 3 by norm_num]
    exact pow_dvd_pow 2 hk3
  · have hge : 8 ≤ l.align := by
      rw [hk]
      calc (8 : Nat) = 2 ^ 3 := by norm_num
        _ ≤ 2 ^ k := Nat.pow_le_pow_right (by norm_num) (by omega)
    rw [Nat.max_eq_left hge]
    refine ⟨dvd_refl _, ?_⟩
    rw [hk, show (8 : Nat) = 2 ^ 3 by norm_num]
    exact pow_dvd_pow 2 (by omega)

lemma mod_eq_zero_of_dvd {d m : Nat} (h : d ∣ m) : m % d = 0 := by
  obtain ⟨c, hc⟩ := h
  subst hc
  exact Nat.mul_mod_right d c

lemma alloc_mut_some_props {st : St} {l : Layout} {p : Nat}
    (hpow : ∃ k, l.align = 2 ^ k)
    (h : (alloc_mut st l).1 = some p) :
    p % l.align = 0 ∧ p % NODE_ALIGN = 0 ∧ NODE_SIZE ≤ (size_align l).1 := by
  rw [alloc_mut_def] at h
  cases hf : find_free_node (st.supply.length + 1) st (size_align l).1 (size_align l).2 with
  | mk o st1 =>
    rw [hf] at h
    cases o with
    | none => simp [allocFinish] at h
    | some pr =>
      obtain ⟨n, addr⟩ := pr
      have hch := find_free_node_some_can_hold _ hf
      have haddr : addr = align_up n.1 (size_align l).2 := can_hold_some_addr hch
      have hp : addr = p := by
        simp only [allocFinish] at h
        split at h <;> exact Option.some.inj h
      subst hp
      obtain ⟨hd1, hd2⟩ := dvd_size_align_snd hpow
      have hmod : addr % (size_align l).2 = 0 := by
        rw [haddr]
        exact align_up_mod _ _
      have hdvd : (size_align l).2 ∣ addr := Nat.dvd_of_mod_eq_zero hmod
      exact ⟨mod_eq_zero_of_dvd (dvd_trans hd1 hdvd),
        mod_eq_zero_of_dvd (dvd_trans hd2 hdvd), size_align_fst_ge l⟩

/-! ## Teardown lemmas -/

lemma entry_free_zero (mem : Nat → Nat → Nat) (e level : Nat) :
    Entry.free 0 mem e level = none := by
  unfold Entry.free
  rfl

lemma table_free_zero (mem : Nat → Nat → Nat) (t level : Nat) :
    PageTable.free 0 mem t level = none := by
  unfold PageTable.free
  rfl

lemma freeEntries_nil (fuel : Nat) (mem : Nat → Nat → Nat) (t level : Nat) :
    PageTable.freeEntries fuel mem t level [] = some [] := by
  unfold PageTable.freeEntries
  rfl

lemma entry_free_absent {e : Nat} (fuel : Nat) (mem : Nat → Nat → Nat)
    (level : Nat) (h : Entry.frame e = none) :
    Entry.free fuel mem e level = none := by
  cases fuel with
  | zero => exact entry_free_zero mem e level
  | succ f =>
    unfold Entry.free
    simp only [h]

lemma free_loop_none : ∀ fuel,
    (∀ level, Entry.free fuel memLoop 4097 level = none) ∧
    (∀ level l, l ≠ [] → PageTable.freeEntries fuel memLoop 4096 level l = none) ∧
    (∀ level, PageTable.free fuel memLoop 4096 level = none) := by
  intro fuel
  induction fuel using Nat.strong_induction_on with
  | _ fuel ih =>
    have hfr : Entry.frame 4097 = some 4096 := by decide
    have hml : ∀ i : Nat, memLoop 4096 i = 4097 := fun i => rfl
    cases fuel with
    | zero =>
      refine ⟨fun level => entry_free_zero _ _ _, ?_, fun level => table_free_zero _ _ _⟩
      intro level l hl
      cases l with
      | nil => exact absurd rfl hl
      | cons i rest =>
        unfold PageTable.freeEntries
        rw [if_pos (by norm_num [memLoop])]
        rw [hml i, entry_free_zero memLoop 4097 (wrapDec level)]
        rfl
    | succ f =>
      obtain ⟨ihe, ihf, iht⟩ := ih f (by omega)
      have hent : ∀ level, Entry.free (f + 1) memLoop 4097 level = none := by
        intro level
        unfold Entry.free
        simp only [hfr, iht level, Option.map_none']
      refine ⟨hent, ?_, ?_⟩
      · intro level l hl
        cases l with
        | nil => exact absurd rfl hl
        | cons i rest =>
          unfold PageTable.freeEntries
          rw [if_pos (by norm_num [memLoop])]
          rw [hml i, hent (wrapDec level)]
          rfl
      · intro level
        unfold PageTable.free
        rw [ihf level (List.range HIGHER_HALF_ENTRY)
          (by simp [HIGHER_HALF_ENTRY, List.range_eq_nil])]
        rfl

lemma freeEntries_mem_congr {mem mem' : Nat → Nat → Nat} {fuel : Nat}
    (hmm : ∀ a i, i < HIGHER_HALF_ENTRY → mem a i = mem' a i)
    (hent : ∀ e level, Entry.free fuel mem e level = Entry.free fuel mem' e level) :
    ∀ (l : List Nat) (t level : Nat), (∀ i ∈ l, i < HIGHER_HALF_ENTRY) →
      PageTable.freeEntries fuel mem t level l =
        PageTable.freeEntries fuel mem' t level l := by
  intro l
  induction l with
  | nil => intro t level hl; rw [freeEntries_nil, freeEntries_nil]
  | cons i rest ihl =>
    intro t level hl
    have hi : mem t i = mem' t i := hmm t i (hl i (List.mem_cons_self i rest))
    unfold PageTable.freeEntries
    rw [hi, ihl t level (fun j hj => hl j (List.mem_cons_of_mem i hj))]
    by_cases hz : mem' t i ≠ 0
    · rw [if_pos hz, if_pos hz, hent (mem' t i) (wrapDec level)]
    · rw [if_neg hz, if_neg hz]

lemma free_mem_lower_half : ∀ fuel (mem mem' : Nat → Nat → Nat),
    (∀ a i, i < HIGHER_HALF_ENTRY → mem a i = mem' a i) →
    (∀ e level, Entry.free fuel mem e level = Entry.free fuel mem' e level) ∧
    (∀ t level, PageTable.free fuel mem t level = PageTable.free fuel mem' t level) := by
  intro fuel
  induction fuel with
  | zero =>
    intro mem mem' hmm
    constructor
    · intro e level
      rw [entry_free_zero, entry_free_zero]
    · intro t level
      rw [table_free_zero, table_free_zero]
  | succ f ih =>
    intro mem mem' hmm
    obtain ⟨ihe, iht⟩ := ih mem mem' hmm
    have hent : ∀ e level,
        Entry.free (f + 1) mem e level = Entry.free (f + 1) mem' e level := by
      intro e level
      unfold Entry.free
      cases hfr : Entry.frame e with
      | none => rfl
      | some fr => simp only [iht]
    refine ⟨hent, ?_⟩
    intro t level
    unfold PageTable.free
    rw [freeEntries_mem_congr hmm ihe (List.range HIGHER_HALF_ENTRY) t level
      (by intro i hi; exact List.mem_range.mp hi)]

lemma table_free_some_own {fuel : Nat} {mem : Nat → Nat → Nat} {t level : Nat}
    {ds : List Nat} (h : PageTable.free fuel mem t level = some ds) :
    ∃ l, ds = l ++ [Frame.containing_address t] := by
  cases fuel with
  | zero =>
    rw [table_free_zero] at h
    cases h
  | succ f =>
    unfold PageTable.free at h
    cases he : PageTable.freeEntries f mem t level (List.range HIGHER_HALF_ENTRY) with
    | none =>
      rw [he] at h
      cases h
    | some l =>
      rw [he] at h
      simp only [Option.map_some'] at h
      exact ⟨l, (Option.some.inj h).symm⟩

lemma table_free_memNonPresent (fuel level : Nat) :
    PageTable.free (fuel + 1) memNonPresent 4096 level = none := by
  unfold PageTable.free
  have hr : List.range HIGHER_HALF_ENTRY = 0 :: (List.range 255).map Nat.succ := by
    rw [show HIGHER_HALF_ENTRY = 255 + 1 from rfl, List.range_succ_eq_map]
  rw [hr]
  unfold PageTable.freeEntries
  rw [if_pos (by norm_num [memNonPresent])]
  rw [show memNonPresent 4096 0 = 2 from rfl,
    entry_free_absent (e := 2) fuel memNonPresent (wrapDec level) (by decide)]
  rfl

lemma freeSpecEntries_no_present : ∀ (l : List Nat) (fuel : Nat)
    (mem : Nat → Nat → Nat) (t level : Nat),
    (∀ i ∈ l, flagsContains (Entry.flags (mem t i)) EntryFlags.PRESENT = false) →
    PageTable.freeSpecEntries fuel mem t level l = some [] := by
  intro l
  induction l with
  | nil =>
    intro fuel mem t level h
    unfold PageTable.freeSpecEntries
    rfl
  | cons i rest ih =>
    intro fuel mem t level h
    unfold PageTable.freeSpecEntries
    rw [if_neg (by simp [h i (List.mem_cons_self i rest)])]
    exact ih fuel mem t level (fun j hj => h j (List.mem_cons_of_mem i hj))

lemma freeSpec_memNonPresent (fuel level : Nat) :
    PageTable.freeSpec (fuel + 1) memNonPresent 4096 level = some [4096] := by
  unfold PageTable.freeSpec
  rw [freeSpecEntries_no_present (List.range HIGHER_HALF_ENTRY) fuel memNonPresent
    4096 level ?_]
  · rfl
  · intro i _
    by_cases hi : i = 0
    · subst hi
      decide
    · simp only [memNonPresent, if_neg hi]
      decide

/-! ## The mapping walk -/

lemma map_to_walk {st : St} {root vaddr fr fl t3 t2 t1 : Nat}
    (htr : PageTable.map_to_tables st root vaddr fl = some (t3, t2, t1))
    (hpres : flagsContains fl EntryFlags.PRESENT = true)
    (hfl : fl &&& FLAGS_MASK = fl)
    (hfr : fr &&& ADDR_MASK = fr)
    (h3 : t3 &&& ADDR_MASK = t3) (h2m : t2 &&& ADDR_MASK = t2)
    (h1m : t1 &&& ADDR_MASK = t1)
    (hd3 : root ≠ t3) (hd2 : root ≠ t2) (hd1 : root ≠ t1)
    (hd32 : t3 ≠ t2) (hd31 : t3 ≠ t1) (hd21 : t2 ≠ t1) :
    (PageTable.map_to st root vaddr fr fl).1 = .ok () ∧
      walkLeaf (PageTable.map_to st root vaddr fr fl).2 root vaddr =
        some (Entry.new fl fr) ∧
      Entry.frame (Entry.new fl fr) = some fr ∧
      flagsContains (Entry.flags (Entry.new fl fr)) fl = true := by
  cases e1 : Entry.map st root (idx4 vaddr) fl with
  | error err =>
    simp only [PageTable.map_to_tables, e1] at htr
    exact Option.noConfusion htr
  | ok pr1 =>
    obtain ⟨t3x, st1⟩ := pr1
    cases e2 : Entry.map st1 t3x (idx3 vaddr) fl with
    | error err =>
      simp only [PageTable.map_to_tables, e1, e2] at htr
      exact Option.noConfusion htr
    | ok pr2 =>
      obtain ⟨t2x, st2⟩ := pr2
      cases e3 : Entry.map st2 t2x (idx2 vaddr) fl with
      | error err =>
        simp only [PageTable.map_to_tables, e1, e2, e3] at htr
        exact Option.noConfusion htr
      | ok pr3 =>
        obtain ⟨t1x, st3⟩ := pr3
        simp only [PageTable.map_to_tables, e1, e2, e3] at htr
        have hinj := Option.some.inj htr
        have g3 := congrArg (fun x => x.1) hinj
        have g2 := congrArg (fun x => x.2.1) hinj
        have g1 := congrArg (fun x => x.2.2) hinj
        simp only at g3 g2 g1
        subst g3
        subst g2
        subst g1
        have hm : PageTable.map_to st root vaddr fr fl =
            (.ok (), writeEntry st3 t1x (idx1 vaddr) (Entry.new fl fr)) := by
          unfold PageTable.map_to
          simp only [e1, e2, e3]
        obtain ⟨F1, hF1m, hF1c, hF1p, hW1, hO1⟩ := entry_map_ok_mem hfl e1 hd3
        obtain ⟨F2, hF2m, hF2c, hF2p, hW2, hO2⟩ := entry_map_ok_mem hfl e2 hd32
        obtain ⟨F3, hF3m, hF3c, hF3p, hW3, hO3⟩ := entry_map_ok_mem hfl e3 hd21
        rw [hm]
        refine ⟨rfl, ?_, new_entry_frame hfl hfr hpres, ?_⟩
        · have r1 : (writeEntry st3 t1x (idx1 vaddr) (Entry.new fl fr)).mem
              root (idx4 vaddr) = Entry.new F1 t3x := by
            rw [writeEntry_mem_other _ _ (fun hc => hd1 hc.1),
              hO3 root (idx4 vaddr) hd2 hd1,
              hO2 root (idx4 vaddr) hd3 hd2, hW1]
          have r2 : (writeEntry st3 t1x (idx1 vaddr) (Entry.new fl fr)).mem
              t3x (idx3 vaddr) = Entry.new F2 t2x := by
            rw [writeEntry_mem_other _ _ (fun hc => hd31 hc.1),
              hO3 t3x (idx3 vaddr) hd32 hd31, hW2]
          have r3 : (writeEntry st3 t1x (idx1 vaddr) (Entry.new fl fr)).mem
              t2x (idx2 vaddr) = Entry.new F3 t1x := by
            rw [writeEntry_mem_other _ _ (fun hc => hd21 hc.1), hW3]
          have r4 : (writeEntry st3 t1x (idx1 vaddr) (Entry.new fl fr)).mem
              t1x (idx1 vaddr) = Entry.new fl fr := writeEntry_mem_same _ _ _ _
          unfold walkLeaf
          rw [r1, new_entry_frame hF1m h3 (hF1p hpres), Option.some_bind,
            r2, new_entry_frame hF2m h2m (hF2p hpres), Option.some_bind,
            r3, new_entry_frame hF3m h1m (hF3p hpres), Option.some_bind,
            r4]
        · rw [new_entry_flags hfl hfr]
          exact contains_self fl

/-! ## map_to failure characterization -/

lemma map_to_error_value {st : St} {root a fr fl : Nat} {e : MapToError}
    (h : (PageTable.map_to st root a fr fl).1 = .error e) :
    e = .frameAllocationFailed := by
  cases e
  rfl

lemma map_to_error_iff (st : St) (root a fr fl : Nat) :
    (PageTable.map_to st root a fr fl).1 = .error .frameAllocationFailed ↔
      (Entry.map st root (idx4 a) fl = .error .frameAllocationFailed ∨
        ∃ t3 st1, Entry.map st root (idx4 a) fl = .ok (t3, st1) ∧
          (Entry.map st1 t3 (idx3 a) fl = .error .frameAllocationFailed ∨
            ∃ t2 st2, Entry.map st1 t3 (idx3 a) fl = .ok (t2, st2) ∧
              Entry.map st2 t2 (idx2 a) fl = .error .frameAllocationFailed)) := by
  constructor
  · intro h
    cases e1 : Entry.map st root (idx4 a) fl with
    | error err =>
      cases err
      exact Or.inl rfl
    | ok pr1 =>
      obtain ⟨t3, st1⟩ := pr1
      cases e2 : Entry.map st1 t3 (idx3 a) fl with
      | error err =>
        cases err
        exact Or.inr ⟨t3, st1, rfl, Or.inl e2⟩
      | ok pr2 =>
        obtain ⟨t2, st2⟩ := pr2
        cases e3 : Entry.map st2 t2 (idx2 a) fl with
        | error err =>
          cases err
          exact Or.inr ⟨t3, st1, rfl, Or.inr ⟨t2, st2, e2, e3⟩⟩
        | ok pr3 =>
          obtain ⟨t1, st3⟩ := pr3
          exfalso
          unfold PageTable.map_to at h
          simp only [e1, e2, e3] at h
          exact Except.noConfusion h
  · intro h
    unfold PageTable.map_to
    rcases h with h1 | ⟨t3, st1, e1, h2⟩
    · simp only [h1]
    · rcases h2 with h2 | ⟨t2, st2, e2, e3⟩
      · simp only [e1, h2]
      · simp only [e1, e2, e3]

lemma map_to_error_state {st : St} {root a fr fl : Nat}
    (h : (PageTable.map_to st root a fr fl).1 = .error .frameAllocationFailed) :
    (PageTable.map_to st root a fr fl).2 = st ∨
      ∃ t3 st1, Entry.map st root (idx4 a) fl = .ok (t3, st1) ∧
        ((PageTable.map_to st root a fr fl).2 = st1 ∨
          ∃ t2 st2, Entry.map st1 t3 (idx3 a) fl = .ok (t2, st2) ∧
            (PageTable.map_to st root a fr fl).2 = st2) := by
  cases e1 : Entry.map st root (idx4 a) fl with
  | error err =>
    have hmeq : PageTable.map_to st root a fr fl = (.error err, st) := by
      unfold PageTable.map_to
      simp only [e1]
    exact Or.inl (by rw [hmeq])
  | ok pr1 =>
    obtain ⟨t3, st1⟩ := pr1
    cases e2 : Entry.map st1 t3 (idx3 a) fl with
    | error err =>
      have hmeq : PageTable.map_to st root a fr fl = (.error err, st1) := by
        unfold PageTable.map_to
        simp only [e1, e2]
      exact Or.inr ⟨t3, st1, rfl, Or.inl (by rw [hmeq])⟩
    | ok pr2 =>
      obtain ⟨t2, st2⟩ := pr2
      cases e3 : Entry.map st2 t2 (idx2 a) fl with
      | error err =>
        have hmeq : PageTable.map_to st root a fr fl = (.error err, st2) := by
          unfold PageTable.map_to
          simp only [e1, e2, e3]
        exact Or.inr ⟨t3, st1, rfl, Or.inr ⟨t2, st2, e2, by rw [hmeq]⟩⟩
      | ok pr3 =>
        obtain ⟨t1, st3⟩ := pr3
        exfalso
        unfold PageTable.map_to at h
        simp only [e1, e2, e3] at h
        exact Except.noConfusion h

/-! # The claims -/

/-- C1, counterexample to the claim as stated: with `flags = WRITABLE`
(PRESENT not included), `map_to` succeeds but the subsequent walk of the
hierarchy dies at the very first level — `frame()` of the root entry is
`none` because the entry was installed without PRESENT — so no leaf entry
is reached at all. -/
theorem C1_counterexample :
    (PageTable.map_to stMap 4096 0 20480 EntryFlags.WRITABLE).1 = .ok () ∧
      walkLeaf (PageTable.map_to stMap 4096 0 20480 EntryFlags.WRITABLE).2 4096 0 =
        none :=
  ⟨rfl, by decide⟩

/-- C1 (amended): if `map_to(page, frame, flags)` returns `Ok` with flags
that include PRESENT, with well-formed flags and a well-formed frame
address, and the three child tables the walk passes through are mutually
distinct, page-aligned representable addresses different from the root,
then walking the four-level hierarchy from the root using the indices of
`page` reaches a leaf entry equal to `Entry::new(flags, frame)`, whose
`frame()` equals `frame` and whose `flags()` contains `flags`; this holds
for every prior state of the hierarchy, the leaf entry being overwritten
unconditionally. -/
theorem C1_map_to_walk {st : St} {root vaddr fr fl t3 t2 t1 : Nat}
    (htr : PageTable.map_to_tables st root vaddr fl = some (t3, t2, t1))
    (hpres : flagsContains fl EntryFlags.PRESENT = true)
    (hfl : fl &&& FLAGS_MASK = fl)
    (hfr : fr &&& ADDR_MASK = fr)
    (h3 : t3 &&& ADDR_MASK = t3) (h2m : t2 &&& ADDR_MASK = t2)
    (h1m : t1 &&& ADDR_MASK = t1)
    (hd3 : root ≠ t3) (hd2 : root ≠ t2) (hd1 : root ≠ t1)
    (hd32 : t3 ≠ t2) (hd31 : t3 ≠ t1) (hd21 : t2 ≠ t1) :
    (PageTable.map_to st root vaddr fr fl).1 = .ok () ∧
      walkLeaf (PageTable.map_to st root vaddr fr fl).2 root vaddr =
        some (Entry.new fl fr) ∧
      Entry.frame (Entry.new fl fr) = some fr ∧
      flagsContains (Entry.flags (Entry.new fl fr)) fl = true :=
  map_to_walk htr hpres hfl hfr h3 h2m h1m hd3 hd2 hd1 hd32 hd31 hd21

/-- Witness for C1 at a concrete input: mapping page 0 to frame 20480 with
flags PRESENT|WRITABLE in a fresh address space walks through the three
fresh tables 8192, 12288, 16384. -/
theorem C1_map_to_walk_witness :
    (PageTable.map_to stMap 4096 0 20480 3).1 = .ok () ∧
      walkLeaf (PageTable.map_to stMap 4096 0 20480 3).2 4096 0 =
        some (Entry.new 3 20480) ∧
      Entry.frame (Entry.new 3 20480) = some 20480 ∧
      flagsContains (Entry.flags (Entry.new 3 20480)) 3 = true :=
  @C1_map_to_walk stMap 4096 0 20480 3 8192 12288 16384 (by decide) (by decide)
    (by decide) (by decide) (by decide) (by decide) (by decide) (by decide)
    (by decide) (by decide) (by decide) (by decide) (by decide)

/-- C2, the code bug: `Entry::free` never returns after the `level == 0`
deallocation (the `if` body lacks a `return`), so it always reinterprets
the pointed-to memory as a page table and recurses — through data frames
as well — with `level - 1` wrapping below zero at `u8` width.  On a memory
whose every word is the present entry `0x1001` the recursion therefore
never bottoms out: for every fuel the call fails to terminate within that
fuel, at every level, so no finite recursion depth completes the claimed
teardown of a present entry. -/
theorem C2_entry_free_nonterminating :
    ∀ fuel level,
      Entry.free fuel memLoop (Entry.new EntryFlags.PRESENT 4096) level = none := by
  intro fuel level
  rw [show Entry.new EntryFlags.PRESENT 4096 = 4097 from by decide]
  exact (free_loop_none fuel).1 level

/-- C3: a call to `extend_heap` that fails — in particular any call made
with the frame supply exhausted, which fails at the first frame of the
extension — returns an error and leaves both `heap_end` and the free list
exactly as they were before the call. -/
theorem C3_extend_heap_clean_failure (st : St)
    (h : st.supply = [] ∨ (extend_heap st).1 = .error ()) :
    (extend_heap st).1 = .error () ∧
      (extend_heap st).2.heap_end = st.heap_end ∧
      (extend_heap st).2.freeList = st.freeList := by
  have herr : (extend_heap st).1 = .error () := by
    cases h with
    | inl hemp => exact (extend_heap_error_of_empty hemp).1
    | inr he => exact he
  obtain ⟨f1, f2, f3⟩ := extend_heap_error_preserves herr
  exact ⟨herr, f2, f1⟩

/-- Witness for C3 at a concrete input: growing the heap with an empty
frame supply fails and preserves `heap_end = 4096` and the one-node free
list. -/
theorem C3_extend_heap_clean_failure_witness :
    stSmall.supply = [] ∧
      ((extend_heap stSmall).1 = .error () ∧
        (extend_heap stSmall).2.heap_end = stSmall.heap_end ∧
        (extend_heap stSmall).2.freeList = stSmall.freeList) :=
  ⟨rfl, C3_extend_heap_clean_failure stSmall (Or.inl rfl)⟩

/-- C4, counterexample to "the heap is grown once": a request of 600000
bytes (more than one 524288-byte extension, less than two) against an
empty free list.  The claim-version allocator that grows at most once
returns null, but the actual `alloc_mut` grows the heap a second time, the
two extensions coalesce, and the allocation succeeds at 532480. -/
theorem C4_counterexample :
    (alloc_mut_once stC4 lC4).1 = none ∧ (alloc_mut stC4 lC4).1 = some 532480 := by
  have hsa1 : (size_align lC4).1 = 600000 := rfl
  have hsa2 : (size_align lC4).2 = 8 := rfl
  have hlen : stC4.supply.length = 1100 := by simp [stC4, mkSupply]
  have h512a : 512 ≤ stC4.supply.length := by rw [hlen]; norm_num
  have hova : stC4.heap_end + 524288 < 2 ^ 64 := by norm_num [stC4]
  obtain ⟨e1ok, e1rt, e1fl, e1he, e1lo, e1hi⟩ := extend_heap_ok_of_supply h512a hova
  have hfl1 : coalesce ((4096 * (stC4.heap_end / 4096) + 4096, 524288) ::
      stC4.freeList) = [(4096, 524288)] := by
    rw [show stC4.heap_end = 0 from rfl, show stC4.freeList = [] from rfl,
      coalesce_cons]
    decide
  have hhe1 : 4096 * (stC4.heap_end / 4096) + 4096 * 128 + 4096 = 528384 := by
    rw [show stC4.heap_end = 0 from rfl]
  cases hE1 : extend_heap stC4 with
  | mk r1 st1 =>
    rw [hE1] at e1ok e1rt e1fl e1he e1lo e1hi
    try simp only at e1ok e1rt e1fl e1he e1lo e1hi
    subst e1ok
    rw [hfl1] at e1fl
    rw [hhe1] at e1he
    rw [hlen] at e1lo e1hi
    have h512b : 512 ≤ st1.supply.length := by omega
    have hovb : st1.heap_end + 524288 < 2 ^ 64 := by rw [e1he]; norm_num
    obtain ⟨e2ok, e2rt, e2fl, e2he, e2lo, e2hi⟩ := extend_heap_ok_of_supply h512b hovb
    have hfl2 : coalesce ((4096 * (st1.heap_end / 4096) + 4096, 524288) ::
        st1.freeList) = [(532480, 1048576)] := by
      rw [e1he, e1fl, show (4096 * (528384 / 4096) + 4096 : Nat) = 532480 from by
        norm_num, coalesce_cons]
      decide
    cases hE2 : extend_heap st1 with
    | mk r2 st2 =>
      rw [hE2] at e2ok e2rt e2fl e2he e2lo e2hi
      try simp only at e2ok e2rt e2fl e2he e2lo e2hi
      subst e2ok
      rw [hfl2] at e2fl
      have hs0 : searchList stC4.freeList 600000 8 = none := rfl
      have hs1 : searchList st1.freeList 600000 8 = none := by rw [e1fl]; decide
      have hs2 : searchList st2.freeList 600000 8 =
          some ((532480, 1048576), 532480, []) := by rw [e2fl]; decide
      refine ⟨?_, ?_⟩
      · simp only [alloc_mut_once, hsa1, hsa2, hs0, hE1, hs1]
      · have hfind : find_free_node (1100 + 1) stC4 600000 8 =
            (some ((532480, 1048576), 532480), { st2 with freeList := [] }) := by
          rw [find_free_node_nofit_grow hs0 hE1,
            show (1100 : Nat) = 1099 + 1 from rfl,
            find_free_node_nofit_grow hs1 hE2,
            show (1099 : Nat) = 1098 + 1 from rfl]
          exact find_free_node_found hs2
        rw [alloc_mut_def, hsa1, hsa2, hlen, hfind]
        simp only [allocFinish]
        norm_num

/-- C4 (amended): `alloc_mut` searches the free list in list order (first
fit: the returned node is the first whose `can_hold` succeeds, every node
before it failing); if no node can hold the request, the heap is grown via
`extend_heap` and the search retried, repeating as often as growth
succeeds; when growth fails, `alloc_mut` returns a null pointer rather
than panicking. -/
theorem C4_alloc_mut_first_fit_grow :
    (∀ (l : List (Nat × Nat)) (size align : Nat) (n : Nat × Nat) (addr : Nat)
        (rest : List (Nat × Nat)),
        searchList l size align = some (n, addr, rest) →
        ∃ l1 l2, l = l1 ++ n :: l2 ∧ rest = l1 ++ l2 ∧
          Node.can_hold n size align = some addr ∧
          ∀ m ∈ l1, Node.can_hold m size align = none) ∧
    (∀ (fuel : Nat) (st st' : St) (size align : Nat),
        searchList st.freeList size align = none →
        extend_heap st = (.ok (), st') →
        find_free_node (fuel + 1) st size align = find_free_node fuel st' size align) ∧
    (∀ (st : St) (l : Layout),
        (∀ n ∈ st.freeList, Node.can_hold n (size_align l).1 (size_align l).2 = none) →
        (extend_heap st).1 = .error () → (alloc_mut st l).1 = none) ∧
    (∀ (st : St) (l : Layout) (n : Nat × Nat) (addr : Nat) (rest : List (Nat × Nat)),
        searchList st.freeList (size_align l).1 (size_align l).2 = some (n, addr, rest) →
        (alloc_mut st l).1 = some addr) :=
  ⟨fun l _ _ _ _ _ h => searchList_some_spec l h,
    fun _ _ _ _ _ h1 h2 => find_free_node_nofit_grow h1 h2,
    fun _ _ h1 h2 => alloc_mut_nofit_error h1 h2,
    fun _ _ _ _ _ h => alloc_mut_fit h⟩

/-- Witness for C4 at a concrete input: a 16-byte request served first-fit
from the single 64-byte free node at 1024. -/
theorem C4_alloc_mut_first_fit_grow_witness :
    searchList stSmall.freeList (size_align ⟨16, 8⟩).1 (size_align ⟨16, 8⟩).2 =
        some ((1024, 64), 1024, []) ∧
      (alloc_mut stSmall ⟨16, 8⟩).1 = some 1024 :=
  ⟨by decide,
    C4_alloc_mut_first_fit_grow.2.2.2 stSmall ⟨16, 8⟩ (1024, 64) 1024 [] (by decide)⟩

/-- C5: the coalescing pass at the end of `extend_heap` merges the newly
inserted extension node with the following nodes exactly while their size
is a multiple of one extension's byte size (`PAGES_PER_EXTEND * PAGE_SIZE`
= 524288), a non-multiple next node stopping the merge; in particular two
sequential successful `extend_heap` calls on an otherwise unused heap
leave the free list with one merged node of combined size
`2 * EXTEND_BYTES`. -/
theorem C5_coalesce_extension_units :
    (∀ (n : Nat × Nat) (rest : List (Nat × Nat)),
        coalesce (n :: rest) =
          (n.1, n.2 +
              ((rest.takeWhile fun m => m.2 % EXTEND_BYTES == 0).map Prod.snd).sum) ::
            rest.dropWhile fun m => m.2 % EXTEND_BYTES == 0) ∧
    (∀ (n m : Nat × Nat) (rest : List (Nat × Nat)), m.2 % EXTEND_BYTES ≠ 0 →
        coalesce (n :: m :: rest) = n :: m :: rest) ∧
    (∀ st : St, st.freeList = [] → st.heap_end = 0 → 1024 ≤ st.supply.length →
        ∃ st1 st2, extend_heap st = (.ok (), st1) ∧ extend_heap st1 = (.ok (), st2) ∧
          st1.freeList = [(4096, EXTEND_BYTES)] ∧
          st2.freeList = [(532480, 2 * EXTEND_BYTES)]) := by
  refine ⟨coalesce_cons, ?_, ?_⟩
  · intro n m rest hm
    rw [coalesce]
    rw [if_neg hm]
  · intro st hfl hhe hsup
    have h512a : 512 ≤ st.supply.length := by omega
    have hova : st.heap_end + 524288 < 2 ^ 64 := by rw [hhe]; norm_num
    obtain ⟨e1ok, e1rt, e1fl, e1he, e1lo, e1hi⟩ := extend_heap_ok_of_supply h512a hova
    have hfl1 : coalesce ((4096 * (st.heap_end / 4096) + 4096, 524288) ::
        st.freeList) = [(4096, 524288)] := by
      rw [hhe, hfl, coalesce_cons]
      decide
    have hhe1 : 4096 * (st.heap_end / 4096) + 4096 * 128 + 4096 = 528384 := by
      rw [hhe]
    cases hE1 : extend_heap st with
    | mk r1 st1 =>
      rw [hE1] at e1ok e1rt e1fl e1he e1lo e1hi
      try simp only at e1ok e1rt e1fl e1he e1lo e1hi
      subst e1ok
      rw [hfl1] at e1fl
      rw [hhe1] at e1he
      have h512b : 512 ≤ st1.supply.length := by omega
      have hovb : st1.heap_end + 524288 < 2 ^ 64 := by rw [e1he]; norm_num
      obtain ⟨e2ok, e2rt, e2fl, e2he, e2lo, e2hi⟩ := extend_heap_ok_of_supply h512b hovb
      have hfl2 : coalesce ((4096 * (st1.heap_end / 4096) + 4096, 524288) ::
          st1.freeList) = [(532480, 1048576)] := by
        rw [e1he, e1fl, show (4096 * (528384 / 4096) + 4096 : Nat) = 532480 from by
          norm_num, coalesce_cons]
        decide
      cases hE2 : extend_heap st1 with
      | mk r2 st2 =>
        rw [hE2] at e2ok e2rt e2fl e2he e2lo e2hi
        try simp only at e2ok e2rt e2fl e2he e2lo e2hi
        subst e2ok
        rw [hfl2] at e2fl
        exact ⟨st1, st2, rfl, hE2, by rw [e1fl]; decide, by rw [e2fl]; decide⟩

/-- Witness for C5 at a concrete input: two heap extensions from a fresh
allocator with 1024 supply frames produce the free lists `[(4096, 524288)]`
and then the merged `[(532480, 1048576)]`. -/
theorem C5_coalesce_extension_units_witness :
    stC5.freeList = [] ∧ stC5.heap_end = 0 ∧ 1024 ≤ stC5.supply.length ∧
      ∃ st1 st2, extend_heap stC5 = (.ok (), st1) ∧ extend_heap st1 = (.ok (), st2) ∧
        st1.freeList = [(4096, EXTEND_BYTES)] ∧
        st2.freeList = [(532480, 2 * EXTEND_BYTES)] :=
  ⟨rfl, rfl, by simp [stC5, mkSupply],
    C5_coalesce_extension_units.2.2 stC5 rfl rfl (by simp [stC5, mkSupply])⟩

/-- C6: for page-aligned bounds `start ≤ end < 2^64`, iterating
`IterPage { start, end }` terminates and yields exactly the pages of the
inclusive range — `(end - start) / PAGE_SIZE + 1` of them, one page when
`start = end`, with no overflow even at the maximum representable page. -/
theorem C6_iter_pages_inclusive {s e : Nat} (hs : 4096 ∣ s) (he : 4096 ∣ e)
    (hle : s ≤ e) (hbound : e < 2 ^ 64) :
    IterPage.pages ⟨⟨s⟩, ⟨e⟩⟩ =
      (List.range ((e - s) / 4096 + 1)).map fun i => Page.mk (s + 4096 * i) :=
  pages_aligned hs he hle hbound

/-- Witness for C6 at the maximum representable page: the one-page range
whose both bounds are `usize::MAX - (PAGE_SIZE - 1)` yields exactly one
page without overflow. -/
theorem C6_iter_pages_inclusive_witness :
    IterPage.pages ⟨⟨2 ^ 64 - 4096⟩, ⟨2 ^ 64 - 4096⟩⟩ =
      (List.range ((2 ^ 64 - 4096 - (2 ^ 64 - 4096)) / 4096 + 1)).map
        fun i => Page.mk (2 ^ 64 - 4096 + 4096 * i) :=
  C6_iter_pages_inclusive ⟨2 ^ 52 - 1, by norm_num⟩ ⟨2 ^ 52 - 1, by norm_num⟩
    le_rfl (by norm_num)

/-- C7, counterexample to "recurses only over the present entries": the
loop of `PageTable::free` recurses over every nonzero entry, present or
not.  On a table whose slot 0 holds the raw word 2 (WRITABLE, not PRESENT,
nonzero) the real teardown hits `frame().unwrap()` on an absent entry and
never completes, while the claim-version teardown that skips non-present
entries succeeds and frees only the table's own frame. -/
theorem C7_counterexample :
    PageTable.free 2 memNonPresent 4096 1 = none ∧
      PageTable.freeSpec 2 memNonPresent 4096 1 = some [4096] :=
  ⟨table_free_memNonPresent 1 1, freeSpec_memNonPresent 1 1⟩

/-- C7 (amended): `PageTable::free(level)` recurses only over the nonzero
entries with index in `[0, 256)` — its result never depends on the
higher-half slots `[256, 512)`, which are left untouched — and on success
the last frame it deallocates is the table's own backing frame. -/
theorem C7_free_private_half :
    (∀ (fuel : Nat) (mem mem' : Nat → Nat → Nat),
        (∀ a i, i < HIGHER_HALF_ENTRY → mem a i = mem' a i) →
        ∀ t level, PageTable.free fuel mem t level = PageTable.free fuel mem' t level) ∧
    (∀ (fuel : Nat) (mem : Nat → Nat → Nat) (t level : Nat) (ds : List Nat),
        PageTable.free fuel mem t level = some ds →
        ∃ l, ds = l ++ [Frame.containing_address t]) :=
  ⟨fun fuel mem mem' hmm t level => (free_mem_lower_half fuel mem mem' hmm).2 t level,
    fun _ _ _ _ _ h => table_free_some_own h⟩

/-- Witness for C7 at a concrete input: teardown of table 4096 gives the
same result on the all-zero memory and on the memory whose higher-half
slots all hold 5. -/
theorem C7_free_private_half_witness :
    PageTable.free 3 memZero 4096 2 = PageTable.free 3 memHigh 4096 2 :=
  C7_free_private_half.1 3 memZero memHigh
    (fun a i h => by
      have h2 : i < 256 := h
      simp only [memZero, memHigh]
      rw [if_neg (by omega)])
    4096 2

/-- C8: `Entry::map` fails with `FrameAllocationFailed` exactly when the
entry is absent and the frame supply is empty; `map_to` never returns any
other error value; `map_to` fails exactly when one of its three `Entry::map`
stages fails this way; and on failure the final state is the state reached
after the successful prefix of the walk — the intermediate tables already
created remain installed, with no rollback. -/
theorem C8_map_to_failure :
    (∀ (st : St) (t i fl : Nat),
        Entry.map st t i fl = .error .frameAllocationFailed ↔
          (flagsContains (Entry.flags (st.mem t i)) EntryFlags.PRESENT = false ∧
            st.supply = [])) ∧
    (∀ (st : St) (root a fr fl : Nat) (e : MapToError),
        (PageTable.map_to st root a fr fl).1 = .error e →
        e = .frameAllocationFailed) ∧
    (∀ (st : St) (root a fr fl : Nat),
        (PageTable.map_to st root a fr fl).1 = .error .frameAllocationFailed ↔
          (Entry.map st root (idx4 a) fl = .error .frameAllocationFailed ∨
            ∃ t3 st1, Entry.map st root (idx4 a) fl = .ok (t3, st1) ∧
              (Entry.map st1 t3 (idx3 a) fl = .error .frameAllocationFailed ∨
                ∃ t2 st2, Entry.map st1 t3 (idx3 a) fl = .ok (t2, st2) ∧
                  Entry.map st2 t2 (idx2 a) fl = .error .frameAllocationFailed))) ∧
    (∀ (st : St) (root a fr fl : Nat),
        (PageTable.map_to st root a fr fl).1 = .error .frameAllocationFailed →
        ((PageTable.map_to st root a fr fl).2 = st ∨
          ∃ t3 st1, Entry.map st root (idx4 a) fl = .ok (t3, st1) ∧
            ((PageTable.map_to st root a fr fl).2 = st1 ∨
              ∃ t2 st2, Entry.map st1 t3 (idx3 a) fl = .ok (t2, st2) ∧
                (PageTable.map_to st root a fr fl).2 = st2))) :=
  ⟨fun _ _ _ _ => entry_map_error_iff,
    fun _ _ _ _ _ _ h => map_to_error_value h,
    fun st root a fr fl => map_to_error_iff st root a fr fl,
    fun _ _ _ _ _ h => map_to_error_state h⟩

/-- Witness for C8 at a concrete input: with an empty frame supply and an
absent root entry, `Entry::map` fails with `FrameAllocationFailed`. -/
theorem C8_map_to_failure_witness :
    Entry.map (St.mk memZero [] 4096 [] 0) 4096 0 3 =
      .error .frameAllocationFailed :=
  (C8_map_to_failure.1 (St.mk memZero [] 4096 [] 0) 4096 0 3).mpr ⟨by decide, rfl⟩

/-- C9, counterexample to the claim as stated: for the pair
`(flags, frame) = (PRESENT, 2^63)` — a page-aligned frame address outside
the `0x000FFFFF_FFFFF000` address mask — the entry built by `Entry::new`
decodes to neither the same flags (bit 63 of the address aliases
NO_EXECUTE) nor the same frame (the address bit is truncated away). -/
theorem C9_counterexample :
    Entry.flags (Entry.new EntryFlags.PRESENT (2 ^ 63)) ≠ EntryFlags.PRESENT ∧
      Entry.frame (Entry.new EntryFlags.PRESENT (2 ^ 63)) ≠ some (2 ^ 63) := by
  decide

/-- C9 (amended): for every pair of declared flag bits and a frame start
address inside the address mask (the representable physical frames), the
entry built by `Entry::new(flags, frame)` decodes back to the same values:
`flags()` returns `flags`, and if `flags` contains PRESENT then `frame()`
returns `Some` of the same frame. -/
theorem C9_entry_roundtrip {fl fr : Nat} (hfl : fl &&& FLAGS_MASK = fl)
    (hfr : fr &&& ADDR_MASK = fr) :
    Entry.flags (Entry.new fl fr) = fl ∧
      (flagsContains fl EntryFlags.PRESENT = true →
        Entry.frame (Entry.new fl fr) = some fr) :=
  ⟨new_entry_flags hfl hfr, fun hp => new_entry_frame hfl hfr hp⟩

/-- Witness for C9 at a concrete input: `(flags, frame) =
(PRESENT|WRITABLE, 20480)` round-trips. -/
theorem C9_entry_roundtrip_witness :
    ((3 : Nat) &&& FLAGS_MASK = 3) ∧ ((20480 : Nat) &&& ADDR_MASK = 20480) ∧
      (Entry.flags (Entry.new 3 20480) = 3 ∧
        (flagsContains 3 EntryFlags.PRESENT = true →
          Entry.frame (Entry.new 3 20480) = some 20480)) :=
  ⟨by decide, by decide, C9_entry_roundtrip (by decide) (by decide)⟩

/-- C10: for every layout with power-of-two alignment, a non-null pointer
returned by `alloc_mut(layout)` is aligned to the layout's requested
alignment, and passing it with the same layout to `dealloc_mut` satisfies
both assertions of `add_free_node` — the address is aligned to `Node`'s
alignment and the recomputed `size_align` size is at least
`size_of::<Node>()` — so deallocating a block obtained from `alloc_mut`
never panics. -/
theorem C10_alloc_dealloc_safe {st : St} {l : Layout} {p : Nat}
    (hpow : ∃ k, l.align = 2 ^ k)
    (h : (alloc_mut st l).1 = some p) :
    p % l.align = 0 ∧ add_free_node_asserts p (size_align l).1 := by
  obtain ⟨h1, h2, h3⟩ := alloc_mut_some_props hpow h
  exact ⟨h1, align_up_of_mod_eq_zero (by decide) h2, h3⟩

/-- Witness for C10 at a concrete input: the 16-byte, 8-aligned block
allocated at 1024 is aligned and satisfies both deallocation assertions. -/
theorem C10_alloc_dealloc_safe_witness :
    (alloc_mut stSmall ⟨16, 8⟩).1 = some 1024 ∧
      (1024 % (⟨16, 8⟩ : Layout).align = 0 ∧
        add_free_node_asserts 1024 (size_align ⟨16, 8⟩).1) :=
  ⟨by decide, @C10_alloc_dealloc_safe stSmall ⟨16, 8⟩ 1024 ⟨3, by norm_num⟩ (by decide)⟩

end NaviOS
